import Mathlib

/-!
# Deedoop OS — capability subsystem: a shallow embedding in Lean 4

This file embeds, directly from the Python sources `deedoop_os_v13_hydra.py`
and `deedoop_os_v10.py`, the parts of the system the specification's claims
are about:

* the capability codec (`CapabilityCodec.compress` / `decompress` / `verify`),
* the capability registry (`CapabilityRegistry.register`, `get`,
  `find_provider`, `list_by_type`),
* the dependency resolver (`CapabilityResolver.resolve`, `resolve_all`),
* the capability loader (`load`, `activate`, `_activate_single`,
  `deactivate`, `hot_swap`) with its shared symbol table,
* the job executors (`PythonExecutor.execute`, `ContainerRuntime.run`) and
  the kernel worker's result recording,
* the v10 `DistributedStore` (`set`, `delete`).

Python dictionaries are modelled as insertion-ordered association lists
(`PyDict`); replacing the value of an existing key keeps its position, as
CPython dicts do.  Python exceptions are modelled with `Except`; where a
raised exception leaves behind partially mutated state (the loader), the
error value carries the state at the time of the raise.

Calls into the Python standard library and interpreter (zlib, base64,
hashlib, UTF-8 codecs, `exec`, `subprocess.run`, wall-clock time) are not
code of this repository; they are parameters of the model (`PyLibs`,
`PyEnv`, `SubprocessOutcome`), constrained only by their documented
contracts where a claim needs them (`PyLibs.Sound`).  Byte strings are
modelled, like text strings, as Lean `String`s.
-/

deriving instance DecidableEq for Except

/-! Insertion-ordered association lists modelling Python `dict`s. -/

namespace PyDict

/-- `d[k]` / `d.get(k)`: first (and, for dicts built by `set`, only) binding. -/
def get? [DecidableEq κ] : List (κ × α) → κ → Option α
  | [], _ => none
  | (k0, v0) :: rest, k => if k0 = k then some v0 else get? rest k

/-- `d[k] = v`: replace in place if the key exists, else append (CPython
insertion order). -/
def set [DecidableEq κ] : List (κ × α) → κ → α → List (κ × α)
  | [], k, v => [(k, v)]
  | (k0, v0) :: rest, k, v =>
    if k0 = k then (k, v) :: rest else (k0, v0) :: set rest k v

/-- `del d[k]` (on a dict whose keys are unique). -/
def erase [DecidableEq κ] : List (κ × α) → κ → List (κ × α)
  | [], _ => []
  | (k0, v0) :: rest, k => if k0 = k then rest else (k0, v0) :: erase rest k

/-- In-place mutation of the object stored at `k`, visible to every holder of
a reference; a no-op when the key is absent. -/
def update [DecidableEq κ] : List (κ × α) → κ → (α → α) → List (κ × α)
  | [], _, _ => []
  | (k0, v0) :: rest, k, f =>
    if k0 = k then (k0, f v0) :: rest else (k0, v0) :: update rest k f

end PyDict

/-- `class CapabilityType(Enum)` from `deedoop_os_v13_hydra.py`. -/
inductive CapabilityType where
  | core | compute | storage | network | quine | executor | plugin
deriving DecidableEq, Repr

/-- `class CapabilityState(Enum)` from `deedoop_os_v13_hydra.py`. -/
inductive CapabilityState where
  | declared | resolving | streaming | loaded | active | suspended | failed
deriving DecidableEq, Repr

/-- `@dataclass CapabilityManifest` (the fields the claims touch; `author`,
`created` and `version` carry no behaviour in the claimed code paths and
`created`, a wall-clock float, is dropped). -/
structure CapabilityManifest where
  id : String
  name : String := ""
  type : CapabilityType
  description : String := ""
  dependencies : List String := []
  provides : List String := []
  genome : String := ""
  genome_hash : String := ""
  genome_size : Nat := 0
  priority : Int := 0
  hot_swappable : Bool := true
  entry_point : String := ""
  exports : List String := []
deriving DecidableEq, Repr

/-- The Python standard-library primitives used by `CapabilityCodec`.  These
are external to the repository, so they are parameters of the model; byte
strings are modelled as `String`s. -/
structure PyLibs where
  zlibCompress : String → String
  zlibDecompress : String → Option String
  b64encode : String → String
  b64decode : String → Option String
  sha256hex : String → String
  utf8Encode : String → String
  utf8Decode : String → Option String

/-- The documented round-trip contracts of zlib, base64 and the UTF-8 codec:
decoding inverts encoding.  (`sha256hex` needs no contract for the claims.) -/
def PyLibs.Sound (L : PyLibs) : Prop :=
  (∀ s, L.zlibDecompress (L.zlibCompress s) = some s) ∧
  (∀ s, L.b64decode (L.b64encode s) = some s) ∧
  (∀ s, L.utf8Decode (L.utf8Encode s) = some s)

/-- A concrete instantiation of the library parameters (identity codecs),
used by witnesses to evaluate the model on closed inputs. -/
def idLibs : PyLibs :=
  { zlibCompress := id, zlibDecompress := some,
    b64encode := id, b64decode := some,
    sha256hex := id,
    utf8Encode := id, utf8Decode := some }

theorem idLibs_sound : idLibs.Sound :=
  ⟨fun _ => rfl, fun _ => rfl, fun _ => rfl⟩

namespace CapabilityCodec

/-- `CapabilityCodec.compress`: UTF-8 encode, zlib-compress, base64-armour;
the hash is the first 16 hex characters of SHA-256 over the *uncompressed*
bytes, and the size is the uncompressed length. -/
def compress (L : PyLibs) (source : String) : String × String × Nat :=
  let data := L.utf8Encode source
  let compressed := L.zlibCompress data
  let genome := L.b64encode compressed
  (genome, (L.sha256hex data).take 16, data.length)

/-- `CapabilityCodec.decompress`: base64-decode, zlib-decompress, UTF-8
decode; any failure raises `ValueError("Failed to decompress genome: ...")`. -/
def decompress (L : PyLibs) (genome : String) : Except String String :=
  match L.b64decode genome with
  | none => .error "Failed to decompress genome"
  | some compressed =>
    match L.zlibDecompress compressed with
    | none => .error "Failed to decompress genome"
    | some data =>
      match L.utf8Decode data with
      | none => .error "Failed to decompress genome"
      | some source => .ok source

/-- `CapabilityCodec.verify`: decompress and compare the recomputed hash;
`False` (never an exception) on any error. -/
def verify (L : PyLibs) (genome expected_hash : String) : Bool :=
  match decompress L genome with
  | .error _ => false
  | .ok source =>
    decide ((L.sha256hex (L.utf8Encode source)).take 16 = expected_hash)

end CapabilityCodec

/-- `class CapabilityRegistry`: dict by id, `defaultdict(list)` by type, dict
by provided name. -/
structure CapabilityRegistry where
  manifests : List (String × CapabilityManifest) := []
  byType : List (CapabilityType × List String) := []
  provides : List (String × String) := []
deriving DecidableEq, Repr

namespace CapabilityRegistry

/-- Fresh registry (`CapabilityRegistry.__init__`). -/
def empty : CapabilityRegistry := {}

/-- The unconditional part of `register`: store the manifest, append the id
to its type bucket, point every provided name at the id. -/
def doRegister (r : CapabilityRegistry) (m : CapabilityManifest) :
    CapabilityRegistry :=
  { manifests := PyDict.set r.manifests m.id m,
    byType := PyDict.set r.byType m.type
      (((PyDict.get? r.byType m.type).getD []) ++ [m.id]),
    provides := m.provides.foldl (fun pv p => PyDict.set pv p m.id) r.provides }

/-- `CapabilityRegistry.register`: a no-op returning `False` when the stored
manifest for the id has the same `genome_hash`; otherwise (re-)registers and
returns `True`. -/
def register (r : CapabilityRegistry) (m : CapabilityManifest) :
    Bool × CapabilityRegistry :=
  match PyDict.get? r.manifests m.id with
  | some existing =>
    if existing.genome_hash = m.genome_hash then (false, r)
    else (true, doRegister r m)
  | none => (true, doRegister r m)

/-- `CapabilityRegistry.get`. -/
def get (r : CapabilityRegistry) (id : String) : Option CapabilityManifest :=
  PyDict.get? r.manifests id

/-- `CapabilityRegistry.find_provider`. -/
def find_provider (r : CapabilityRegistry) (requirement : String) :
    Option String :=
  PyDict.get? r.provides requirement

/-- The raw id bucket for a type (`self._by_type.get(type, [])`). -/
def typeIds (r : CapabilityRegistry) (t : CapabilityType) : List String :=
  (PyDict.get? r.byType t).getD []

/-- `CapabilityRegistry.list_by_type`: the manifests for the type's bucket. -/
def list_by_type (r : CapabilityRegistry) (t : CapabilityType) :
    List CapabilityManifest :=
  (typeIds r t).filterMap (fun id => get r id)

end CapabilityRegistry

/-! ## The resolver

`CapabilityResolver.resolve` is a recursive `visit` over a mutable
`visited` set and `result` list.  The Python recursion is unbounded; the
embedding makes it structural with a fuel argument whose exhaustion is
reported as the distinguished error `ResolveErr.fuelExhausted` (never
reached for sufficient fuel — all theorems either supply the fuel
concretely or hold for every fuel). -/

inductive ResolveErr where
  | fuelExhausted
  | cannotResolve (name : String)
deriving DecidableEq, Repr

namespace CapabilityResolver

/-- The manifest lookup inside `visit`: try the id directly; if unmet, try
the provides index and *reassign* `id` to the provider.  Returns the
(possibly substituted) id together with the manifest found, if any. -/
def substStep (r : CapabilityRegistry) (id : String) :
    String × Option CapabilityManifest :=
  match r.get id with
  | some m => (id, some m)
  | none =>
    match r.find_provider id with
    | some provider => (provider, r.get provider)
    | none => (id, none)

/-- Sequential traversal of a dependency list, threading the
`(visited, result)` state and propagating the first raised error —
the `for dep in manifest.dependencies: visit(dep)` loop. -/
def visitFold (f : String → List String × List String →
    Except ResolveErr (List String × List String)) :
    List String → List String × List String →
    Except ResolveErr (List String × List String)
  | [], st => .ok st
  | d :: ds, st =>
    match f d st with
    | .error e => .error e
    | .ok st2 => visitFold f ds st2

/-- The inner `visit(id)` of `CapabilityResolver.resolve`: return if already
visited, mark visited (with the *pre-substitution* name), resolve the
manifest (substituting a provider for an unmet name), recurse into the
dependencies, then append the (post-substitution) id — depth-first
post-order. -/
def visit (r : CapabilityRegistry) :
    Nat → String → List String × List String →
    Except ResolveErr (List String × List String)
  | 0, _, _ => .error .fuelExhausted
  | fuel + 1, id, (visited, result) =>
    if id ∈ visited then .ok (visited, result)
    else
      match substStep r id with
      | (id2, none) => .error (.cannotResolve id2)
      | (id2, some m) =>
        match visitFold (visit r fuel) m.dependencies
            (visited ++ [id], result) with
        | .error e => .error e
        | .ok (v2, res2) => .ok (v2, res2 ++ [id2])

/-- `CapabilityResolver.resolve`: the `result` list of a `visit` from empty
state. -/
def resolve (r : CapabilityRegistry) (fuel : Nat) (capability_id : String) :
    Except ResolveErr (List String) :=
  match visit r fuel capability_id ([], []) with
  | .error e => .error e
  | .ok (_, result) => .ok result

/-- `CapabilityResolver.resolve_all`: concatenate per-id plans, keeping the
first occurrence of each id. -/
def resolve_all (r : CapabilityRegistry) (fuel : Nat) (ids : List String) :
    Except ResolveErr (List String) :=
  ids.foldlM
    (fun acc id => do
      let plan ← resolve r fuel id
      pure (plan.foldl (fun a dep => if dep ∈ a then a else a ++ [dep]) acc))
    []

end CapabilityResolver

/-! ## The loader

`CapabilityLoader` holds the registry, the `_loaded` and `_active` caches
and the shared symbol table.  Python values living in namespaces are an
opaque type parameter `V`; executing a capability's source (`exec`) and
calling its entry point are interpreter behaviour external to this
repository and enter the model as the `PyEnv` parameters (re-entrant
mutation of the loader through the published `HYDRA` self-reference is not
modelled; of the entry point's behaviour only whether it raises is).
Loader operations return `Except (String × LoaderState V) (α × LoaderState V)`:
a raised exception carries the message *and* the state at the raise, since
Python mutations performed before the raise persist. -/

/-- `@dataclass Capability`: a loaded capability instance.  `namespace` is a
Lean keyword, so the execution namespace field is called `ns`; wall-clock
timestamps are modelled by the loader's operation counter. -/
structure Capability (V : Type) where
  manifest : CapabilityManifest
  state : CapabilityState := .declared
  source : String := ""
  ns : List (String × V) := []
  error : String := ""
  loaded_at : Nat := 0
  activated_at : Nat := 0
deriving DecidableEq, Repr

/-- The interpreter-level parameters of the loader model. -/
structure PyEnv (V : Type) where
  libs : PyLibs
  /-- `exec(source, namespace)`: the namespace after executing the source in
  it, or the raised exception's message. -/
  exec : String → List (String × V) → Except String (List (String × V))
  /-- Python `callable(...)`. -/
  isCallable : V → Bool
  /-- Invoking the entry point: `.ok` or the raised exception's message. -/
  callEntry : V → Except String Unit
  /-- The value bound to `__capability_id__`. -/
  capIdVal : String → V
  /-- The value bound to `__capability_manifest__`. -/
  manifestVal : CapabilityManifest → V
  /-- The value bound to `__builtins__` in the shared namespace. -/
  builtinsVal : V
  /-- The `HYDRA` self-reference in the shared namespace. -/
  hydraVal : V

/-- The mutable state of a `CapabilityLoader` (plus the registry it holds a
reference to). -/
structure LoaderState (V : Type) where
  registry : CapabilityRegistry
  loaded : List (String × Capability V) := []
  active : List (String × Capability V) := []
  shared : List (String × V)
  now : Nat := 0
deriving DecidableEq, Repr

namespace CapabilityLoader

/-- `CapabilityLoader.__init__`: empty caches, shared namespace seeded with
`__builtins__` and the `HYDRA` self-reference. -/
def init (E : PyEnv V) (registry : CapabilityRegistry) : LoaderState V :=
  { registry := registry,
    shared := [("__builtins__", E.builtinsVal), ("HYDRA", E.hydraVal)] }

/-- `CapabilityLoader.load`: return the cached instance if present
(no verification); otherwise require a registered manifest, verify its
genome, decompress, and cache a `LOADED` capability. -/
def load (E : PyEnv V) (st : LoaderState V) (capability_id : String) :
    Except (String × LoaderState V) (Capability V × LoaderState V) :=
  match PyDict.get? st.loaded capability_id with
  | some cap => .ok (cap, st)
  | none =>
    match st.registry.get capability_id with
    | none => .error ("Unknown capability: " ++ capability_id, st)
    | some m =>
      if CapabilityCodec.verify E.libs m.genome m.genome_hash = false then
        .error ("Genome integrity check failed: " ++ capability_id, st)
      else
        match CapabilityCodec.decompress E.libs m.genome with
        | .error e => .error (e, st)
        | .ok source =>
          let cap : Capability V :=
            { manifest := m, state := .loaded, source := source,
              loaded_at := st.now }
          .ok (cap, { st with
            loaded := PyDict.set st.loaded capability_id cap,
            now := st.now + 1 })

/-- `CapabilityLoader._activate_single`: execute the source in a namespace
seeded from the shared table plus the two capability dunders, publish the
exports *that are present in the namespace*, invoke the entry point if
callable, and insert into `_active`; any raise marks the (cached) instance
`FAILED` and propagates. -/
def activateSingle (E : PyEnv V) (st : LoaderState V) (cap : Capability V) :
    Except (String × LoaderState V) (LoaderState V) :=
  let ns0 :=
    PyDict.set
      (PyDict.set st.shared "__capability_id__" (E.capIdVal cap.manifest.id))
      "__capability_manifest__" (E.manifestVal cap.manifest)
  match E.exec cap.source ns0 with
  | .error e =>
    .error (e, { st with
      loaded := PyDict.set st.loaded cap.manifest.id
        { cap with state := .failed, error := e } })
  | .ok ns1 =>
    let capA : Capability V :=
      { cap with ns := ns1, state := .active, activated_at := st.now }
    let shared1 := cap.manifest.exports.foldl
      (fun sh ex =>
        match PyDict.get? ns1 ex with
        | some v => PyDict.set sh ex v
        | none => sh) st.shared
    let st1 : LoaderState V :=
      { st with shared := shared1,
                loaded := PyDict.set st.loaded capA.manifest.id capA }
    let entryRes : Except String Unit :=
      if capA.manifest.entry_point = "" then .ok ()
      else
        match PyDict.get? ns1 capA.manifest.entry_point with
        | none => .ok ()
        | some v => if E.isCallable v then E.callEntry v else .ok ()
    match entryRes with
    | .error e =>
      .error (e, { st1 with
        loaded := PyDict.set st1.loaded capA.manifest.id
          { capA with state := .failed, error := e } })
    | .ok _ =>
      .ok { st1 with
        active := PyDict.set st1.active capA.manifest.id capA }

/-- The `for dep_id in load_order` body of `activate`: skip ids already
active, otherwise `load` then `_activate_single`. -/
def activateLoop (E : PyEnv V) :
    LoaderState V → List String →
    Except (String × LoaderState V) (LoaderState V)
  | st, [] => .ok st
  | st, dep :: rest =>
    if (PyDict.get? st.active dep).isSome then activateLoop E st rest
    else
      match load E st dep with
      | .error e => .error e
      | .ok (cap, st1) =>
        match activateSingle E st1 cap with
        | .error e => .error e
        | .ok st2 => activateLoop E st2 rest

/-- The message of a resolver error as raised into `activate`'s caller. -/
def resolveErrMsg : ResolveErr → String
  | .fuelExhausted => "resolver fuel exhausted"
  | .cannotResolve name => "Cannot resolve capability: " ++ name

/-- `CapabilityLoader.activate`: return the cached active instance if
present; otherwise resolve the load order, run the activation loop, and
look the id up in `_active` (a `KeyError` if the argument was a provides
name rather than a registered id). -/
def activate (E : PyEnv V) (st : LoaderState V) (capability_id : String)
    (fuel : Nat) :
    Except (String × LoaderState V) (Capability V × LoaderState V) :=
  match PyDict.get? st.active capability_id with
  | some cap => .ok (cap, st)
  | none =>
    match CapabilityResolver.resolve st.registry fuel capability_id with
    | .error e => .error (resolveErrMsg e, st)
    | .ok load_order =>
      match activateLoop E st load_order with
      | .error e => .error e
      | .ok st2 =>
        match PyDict.get? st2.active capability_id with
        | some cap => .ok (cap, st2)
        | none => .error ("KeyError: " ++ capability_id, st2)

/-- `CapabilityLoader.deactivate`: best-effort cleanup call (errors
swallowed, effects outside the model), mark the instance `SUSPENDED`
(visible through the `_loaded` alias), drop it from `_active`.  Exported
symbols stay in the shared table. -/
def deactivate (st : LoaderState V) (capability_id : String) :
    LoaderState V :=
  match PyDict.get? st.active capability_id with
  | none => st
  | some _ =>
    { st with
      active := PyDict.erase st.active capability_id,
      loaded := PyDict.update st.loaded capability_id
        (fun c => { c with state := .suspended }) }

/-- `CapabilityLoader.hot_swap`: refuse (returning `False`) when the active
instance is not hot-swappable; otherwise deactivate it, evict the loaded
copy, register the new manifest and activate its id, returning `True`. -/
def hot_swap (E : PyEnv V) (st : LoaderState V)
    (new_manifest : CapabilityManifest) (fuel : Nat) :
    Except (String × LoaderState V) (Bool × LoaderState V) :=
  match PyDict.get? st.active new_manifest.id with
  | some old_cap =>
    if old_cap.manifest.hot_swappable = false then .ok (false, st)
    else
      let st1 := deactivate st new_manifest.id
      match PyDict.get? st1.loaded new_manifest.id with
      | none => .error ("KeyError: " ++ new_manifest.id, st1)
      | some _ =>
        let st2 : LoaderState V :=
          { st1 with loaded := PyDict.erase st1.loaded new_manifest.id }
        let st3 : LoaderState V :=
          { st2 with registry := (st2.registry.register new_manifest).2 }
        match activate E st3 new_manifest.id fuel with
        | .error e => .error e
        | .ok (_, st4) => .ok (true, st4)
  | none =>
    let st3 : LoaderState V :=
      { st with registry := (st.registry.register new_manifest).2 }
    match activate E st3 new_manifest.id fuel with
    | .error e => .error e
    | .ok (_, st4) => .ok (true, st4)

/-- `CapabilityLoader.get_symbol`. -/
def get_symbol (st : LoaderState V) (name : String) : Option V :=
  PyDict.get? st.shared name

end CapabilityLoader

/-! ## Job executors and the kernel worker (v13)

`subprocess.run` is interpreter/OS behaviour; its outcome for the one call
an executor makes is the model parameter `SubprocessOutcome`. -/

/-- Outcome of a `subprocess.run(...)` call: normal completion, a
`subprocess.TimeoutExpired` raise (with `str(e)`), or another raised
exception (with `str(e)`). -/
inductive SubprocessOutcome where
  | completed (returncode : Int) (stdout stderr : String)
  | timedOut (msg : String)
  | failed (msg : String)
deriving DecidableEq, Repr

/-- Python truthiness of an optional string (`None` and `""` are falsy). -/
def truthyStr : Option String → Bool
  | none => false
  | some s => decide (s ≠ "")

/-- `ContainerRuntime.run` (capability `compute.container`): the distinct
`except subprocess.TimeoutExpired` branch maps a timeout to
`(-1, "", "Timeout")`; other exceptions map to `(1, "", str(e))`. -/
def ContainerRuntime.run (rt : Option String)
    (outcome : SubprocessOutcome) : Int × String × String :=
  match rt with
  | none => (1, "", "No container runtime")
  | some _ =>
    match outcome with
    | .completed rc out err => (rc, out, err)
    | .timedOut _ => (-1, "", "Timeout")
    | .failed e => (1, "", e)

/-- `PythonExecutor.execute` (capability `compute.python`): there is no
`TimeoutExpired` branch — the single `except Exception` catches timeouts
too and maps them, like any other exception, to `(1, "", str(e))`. -/
def PythonExecutor.execute (code script : Option String)
    (outcome : SubprocessOutcome) : Int × String × String :=
  let sp : Option String := if truthyStr code then some "job.py" else script
  if truthyStr sp = false then (1, "", "No code or script")
  else
    match outcome with
    | .completed rc out err => (rc, out, err)
    | .timedOut msg => (1, "", msg)
    | .failed e => (1, "", e)

/-- A job record as kept by `HydraKernel.jobs` (the fields the worker
writes). -/
structure JobRecord where
  id : String
  type : String
  status : String := "pending"
  exit_code : Option Int := none
  output : Option String := none
  error : Option String := none
deriving DecidableEq, Repr

/-- The executor dispatch of `HydraKernel._worker_loop` on a claimed job:
`python` and `container` go to their executors, anything else fails with
exit code 1. -/
def HydraKernel.runJob (jtype : String) (code script rt : Option String)
    (outcome : SubprocessOutcome) : Int × String × String :=
  if jtype = "python" then PythonExecutor.execute code script outcome
  else if jtype = "container" then ContainerRuntime.run rt outcome
  else (1, "", "Unknown job type: " ++ jtype)

/-- The worker's result recording: terminal status from the exit code, plus
`exit_code`, `output`, `error`. -/
def HydraKernel.recordResult (j : JobRecord) (r : Int × String × String) :
    JobRecord :=
  { j with status := if r.1 = 0 then "completed" else "failed",
           exit_code := some r.1, output := some r.2.1, error := some r.2.2 }

/-! ## The v10 `DistributedStore`

Values are an opaque type parameter; the `_save`/`_load` JSON persistence
is filesystem I/O outside the claims.  `self.versions` is a
`defaultdict(int)`: absent keys read as `0`. -/

/-- The in-memory state of `DistributedStore` (v10). -/
structure DistributedStore (α : Type) where
  data : List (String × α) := []
  versions : List (String × Int) := []
deriving DecidableEq, Repr

namespace DistributedStore

/-- `self.versions[key]` under `defaultdict(int)`. -/
def versionOf (s : DistributedStore α) (key : String) : Int :=
  (PyDict.get? s.versions key).getD 0

/-- `DistributedStore.get`. -/
def get (s : DistributedStore α) (key : String) : Option α :=
  PyDict.get? s.data key

/-- `DistributedStore.set`: default the version to `stored + 1`; apply the
write iff `version >= stored`; return the stored version after the call. -/
def set (s : DistributedStore α) (key : String) (value : α)
    (version : Option Int) : Int × DistributedStore α :=
  let ver := match version with
    | none => versionOf s key + 1
    | some v => v
  if versionOf s key ≤ ver then
    (ver, { data := PyDict.set s.data key value,
            versions := PyDict.set s.versions key ver })
  else (versionOf s key, s)

/-- `DistributedStore.delete`: drop the key and bump its version when
present. -/
def delete (s : DistributedStore α) (key : String) :
    Bool × DistributedStore α :=
  if (PyDict.get? s.data key).isSome then
    (true, { data := PyDict.erase s.data key,
             versions := PyDict.set s.versions key (versionOf s key + 1) })
  else (false, s)

/-- A `set` or `delete` call, for stating properties of operation
sequences. -/
inductive Op (α : Type) where
  | setOp (key : String) (value : α) (version : Option Int)
  | delOp (key : String)

/-- Apply one operation, discarding the return value. -/
def applyOp (s : DistributedStore α) : Op α → DistributedStore α
  | .setOp k v ver => (set s k v ver).2
  | .delOp k => (delete s k).2

/-- Apply a sequence of operations. -/
def applyOps (s : DistributedStore α) (ops : List (Op α)) :
    DistributedStore α :=
  ops.foldl applyOp s

end DistributedStore

namespace CapabilityCodec

/-- `CapabilityCodec.create_manifest`: pure builder computing genome, hash
and size from the source and filling Python's `or`-defaults. -/
def create_manifest (L : PyLibs) (id name : String) (type : CapabilityType)
    (source : String) (dependencies provides : List String)
    (entry_point : String) (exports : List String) (description : String)
    (priority : Int) : CapabilityManifest :=
  let c := compress L source
  { id := id, name := name, type := type,
    description := if description = "" then name ++ " capability"
                   else description,
    dependencies := dependencies,
    provides := if provides.isEmpty then [id] else provides,
    genome := c.1, genome_hash := c.2.1, genome_size := c.2.2,
    priority := priority, entry_point := entry_point, exports := exports }

end CapabilityCodec

/-! ## Concrete instances used by counterexamples and witnesses

All concrete scenarios run over `idLibs` (a `Sound` instantiation of the
library parameters) and `natEnv` (namespace values are `Nat`s, `exec` is
the interpreter of an empty module: it defines nothing and succeeds). -/

/-- Interpreter parameters for concrete runs: executing any source succeeds
and adds no bindings; nothing is callable. -/
def natEnv : PyEnv Nat :=
  { libs := idLibs,
    exec := fun _ ns => .ok ns,
    isCallable := fun _ => false,
    callEntry := fun _ => .ok (),
    capIdVal := fun _ => 0,
    manifestVal := fun _ => 0,
    builtinsVal := 0,
    hydraVal := 1 }

/-- Capability `A`, depending on `B`. -/
def manA : CapabilityManifest :=
  CapabilityCodec.create_manifest idLibs "A" "A" .core "sourceA" ["B"] [] ""
    [] "" 0

/-- Capability `B`, depending on `A` — together with `A` a dependency
cycle. -/
def manB : CapabilityManifest :=
  CapabilityCodec.create_manifest idLibs "B" "B" .core "sourceB" ["A"] [] ""
    [] "" 0

/-- A registry whose dependency graph is the two-cycle `A ↔ B`. -/
def cycReg : CapabilityRegistry :=
  ((CapabilityRegistry.empty.register manA).2.register manB).2

/-- Capability `P`, providing both its own id and the abstract name `N`. -/
def manP : CapabilityManifest :=
  CapabilityCodec.create_manifest idLibs "P" "P" .core "sourceP" []
    ["P", "N"] "" [] "" 0

/-- Capability `X`, depending on `P` both through the alias `N` and through
the id `P` directly. -/
def manX : CapabilityManifest :=
  CapabilityCodec.create_manifest idLibs "X" "X" .core "sourceX" ["N", "P"]
    [] "" [] "" 0

/-- An acyclic registry in which `P` is reachable under its own id and under
its provided name `N`. -/
def aliasReg : CapabilityRegistry :=
  ((CapabilityRegistry.empty.register manP).2.register manX).2

/-- First generation of id `A` for the by-type index scenario. -/
def manT1 : CapabilityManifest :=
  { id := "A", type := .core, genome_hash := "h1" }

/-- Second generation of id `A`: same type, different `genome_hash`, so
`register` replaces the entry. -/
def manT2 : CapabilityManifest :=
  { id := "A", type := .core, genome_hash := "h2" }

/-- The registry after registering `A` twice with differing hashes. -/
def replReg : CapabilityRegistry :=
  ((CapabilityRegistry.empty.register manT1).2.register manT2).2

/-- A well-formed manifest for id `I` with source `"S1"` (over `idLibs` its
genome is `"S1"` and its hash is `"S1"`, which verifies). -/
def manGood : CapabilityManifest :=
  CapabilityCodec.create_manifest idLibs "I" "I" .plugin "S1" [] [] "" [] "" 0

/-- A later manifest for id `I` whose genome does not verify against its
`genome_hash`. -/
def manBad : CapabilityManifest :=
  { id := "I", type := .plugin, genome := "S2",
    genome_hash := "0000000000000000" }

/-- Loader state after seeding a fresh loader with `manGood`. -/
def stI0 : LoaderState Nat :=
  CapabilityLoader.init natEnv (CapabilityRegistry.empty.register manGood).2

/-- The cached instance of `I` produced by the first `load`. -/
def capI : Capability Nat :=
  { manifest := manGood, state := .loaded, source := "S1", loaded_at := 0 }

/-- Loader state after `load("I")` succeeded once. -/
def stIGood : LoaderState Nat :=
  { stI0 with loaded := [("I", capI)], now := 1 }

/-- `stIGood` after `manBad` replaces `I` in the registry (re-registration
with a different hash): the loaded cache still holds the old generation. -/
def stIBad : LoaderState Nat :=
  { stIGood with registry := (stIGood.registry.register manBad).2 }

/-! ## Resolver theory: the resolved dependency graph

Properties of the plans `resolve` produces are stated over the *resolved*
dependency graph: the edge relation obtained after the provider
substitution `substStep` is applied to dependency names. -/

namespace CapabilityResolver

/-- The id a dependency name contributes to the plan: the name itself when
registered, else its provider if the provides index has one. -/
def rid (r : CapabilityRegistry) (n : String) : String := (substStep r n).1

/-- Edge of the resolved dependency graph: `a`, registered, depends (through
`rid`) on `b`. -/
def Edge (r : CapabilityRegistry) (a b : String) : Prop :=
  ∃ m, r.get a = some m ∧ ∃ d, d ∈ m.dependencies ∧ rid r d = b

/-- The resolved dependency graph has no cycle. -/
def Acyclic (r : CapabilityRegistry) : Prop :=
  ∀ a, ¬ Relation.TransGen (Edge r) a a

/-- Every dependency of every registered manifest is itself a registered id,
so the provider substitution is never exercised. -/
def DirectDeps (r : CapabilityRegistry) : Prop :=
  ∀ id m, r.get id = some m → ∀ d ∈ m.dependencies, (r.get d).isSome

/-- `grey` is the resolver's implicit DFS stack (pre-substitution names,
outermost first): consecutive resolved ids are joined by edges and the last
one has an edge to `t`. -/
def chainTo (r : CapabilityRegistry) : List String → String → Prop
  | [], _ => True
  | [n], t => Edge r (rid r n) t
  | n :: n2 :: rest, t =>
    Edge r (rid r n) (rid r n2) ∧ chainTo r (n2 :: rest) t

/-- Every visited name not on the DFS stack has already been appended (as
its resolved id) to the result. -/
def BlackOK (r : CapabilityRegistry)
    (grey visited result : List String) : Prop :=
  ∀ n, n ∈ visited → n ∉ grey → rid r n ∈ result

/-- Dependency ordering of a plan: every entry's direct dependencies appear
(resolved) strictly earlier in the plan. -/
def Ordered (r : CapabilityRegistry) (res : List String) : Prop :=
  ∀ k (hk : k < res.length), ∀ m, r.get (res.get ⟨k, hk⟩) = some m →
    ∀ d ∈ m.dependencies, rid r d ∈ res.take k

end CapabilityResolver

/-- Unique keys: the well-formedness every Python dict state satisfies. -/
def PyDict.UniqKeys (d : List (κ × α)) : Prop := (d.map Prod.fst).Nodup

/-- The registry maps every id to a manifest carrying that id (true of every
reachable registry, since `register` keys the dict by `manifest.id`). -/
def RegWellKeyed (r : CapabilityRegistry) : Prop :=
  ∀ k m, r.get k = some m → m.id = k

/-- The loaded cache maps every id to a capability whose manifest carries
that id (true of every reachable loader state). -/
def LoadedWellKeyed (l : List (String × Capability V)) : Prop :=
  ∀ k c, PyDict.get? l k = some c → c.manifest.id = k

/-- A claimed job record as the worker sees it. -/
def jobPy : JobRecord := { id := "j1", type := "python", status := "running" }

/-- Total extraction of the loader state from an `activate`/`load` result
(both branches carry the state). -/
def actState : Except (String × LoaderState V) (Capability V × LoaderState V) →
    LoaderState V
  | .ok p => p.2
  | .error e => e.2

/-- Total extraction of the loader state from a `hot_swap` result. -/
def swapState : Except (String × LoaderState V) (Bool × LoaderState V) →
    LoaderState V
  | .ok p => p.2
  | .error e => e.2

/-- `Except.isOk` as used by the concrete scenarios. -/
def exOk : Except ε α → Bool
  | .ok _ => true
  | .error _ => false

/-- Capability `X6`: no dependencies, exporting the name `FOO` which its
source (interpreted by `natEnv.exec`) does not define. -/
def manX6 : CapabilityManifest :=
  CapabilityCodec.create_manifest idLibs "X6" "X6" .plugin "S6" [] [] ""
    ["FOO"] "" 0

/-- Fresh loader over a registry holding only `X6`. -/
def st6 : LoaderState Nat :=
  CapabilityLoader.init natEnv (CapabilityRegistry.empty.register manX6).2

/-- The state after activating `X6`. -/
def st6A : LoaderState Nat :=
  actState (CapabilityLoader.activate natEnv st6 "X6" 5)

/-- Capability `D`: a leaf dependency. -/
def manD : CapabilityManifest :=
  CapabilityCodec.create_manifest idLibs "D" "D" .plugin "SD" [] [] "" [] "" 0

/-- Capability `XD`, depending on `D`. -/
def manXD : CapabilityManifest :=
  CapabilityCodec.create_manifest idLibs "XD" "XD" .plugin "SXD" ["D"] [] ""
    [] "" 0

/-- Fresh loader over `{D, XD}`. -/
def stb0 : LoaderState Nat :=
  CapabilityLoader.init natEnv
    ((CapabilityRegistry.empty.register manD).2.register manXD).2

/-- State after activating `XD` (activating `D` on the way). -/
def stb1 : LoaderState Nat :=
  actState (CapabilityLoader.activate natEnv stb0 "XD" 5)

/-- `stb1` after deactivating the dependency `D`: `XD` is still active while
a member of its load plan is not. -/
def stb2 : LoaderState Nat := CapabilityLoader.deactivate stb1 "D"

/-- First generation of the hot-swappable capability `SW`. -/
def manSw1 : CapabilityManifest :=
  CapabilityCodec.create_manifest idLibs "SW" "SW" .plugin "V1" [] [] "" [] "" 0

/-- Second generation of `SW` (different source, hence different hash). -/
def manSw2 : CapabilityManifest :=
  CapabilityCodec.create_manifest idLibs "SW" "SW" .plugin "V2" [] [] "" [] "" 0

/-- State with generation one of `SW` active. -/
def stSw1 : LoaderState Nat :=
  actState (CapabilityLoader.activate natEnv
    (CapabilityLoader.init natEnv (CapabilityRegistry.empty.register manSw1).2)
    "SW" 5)

/-- The active instance of `SW` in `stSw1`. -/
def capSw1 : Capability Nat :=
  (PyDict.get? stSw1.active "SW").getD { manifest := manSw1 }

/-- A capability whose manifest refuses hot swapping. -/
def manNs1 : CapabilityManifest :=
  { id := "NS", type := .plugin, genome := "N1", genome_hash := "N1",
    hot_swappable := false }

/-- A second generation for `NS`. -/
def manNs2 : CapabilityManifest :=
  { id := "NS", type := .plugin, genome := "N2", genome_hash := "N2" }

/-- State with the non-swappable `NS` active. -/
def stNs1 : LoaderState Nat :=
  actState (CapabilityLoader.activate natEnv
    (CapabilityLoader.init natEnv (CapabilityRegistry.empty.register manNs1).2)
    "NS" 5)

/-- The active instance of `NS` in `stNs1`. -/
def capNs1 : Capability Nat :=
  (PyDict.get? stNs1.active "NS").getD { manifest := manNs1 }

/-- A fresh loader whose registry holds only the non-verifying `manBad`. -/
def stIBadFresh : LoaderState Nat :=
  CapabilityLoader.init natEnv (CapabilityRegistry.empty.register manBad).2

/-- The registry reached from empty by a sequence of `register` calls. -/
def regOf (ms : List CapabilityManifest) : CapabilityRegistry :=
  ms.foldl (fun r m => (r.register m).2) CapabilityRegistry.empty

/-- A one-capability registry with no dependencies (a trivially acyclic,
alias-free instance). -/
def manW : CapabilityManifest :=
  CapabilityCodec.create_manifest idLibs "W" "W" .core "sourceW" [] [] "" [] "" 0

/-- The registry holding only `W`. -/
def regW : CapabilityRegistry := (CapabilityRegistry.empty.register manW).2

/-- The active instance of `X6` after activation. -/
def cap6 : Capability Nat :=
  (PyDict.get? st6A.active "X6").getD { manifest := manX6 }

/-! ## Dictionary lemmas -/

namespace PyDict

variable [DecidableEq κ]

theorem get?_set_self (d : List (κ × α)) (k : κ) (v : α) :
    get? (set d k v) k = some v := by
  induction d with
  | nil => simp [set, get?]
  | cons p rest ih =>
    obtain ⟨k0, v0⟩ := p
    by_cases h : k0 = k
    · simp [set, h, get?]
    · simp [set, h, get?, ih]

theorem get?_set_of_ne (d : List (κ × α)) (k k2 : κ) (v : α) (h : k2 ≠ k) :
    get? (set d k v) k2 = get? d k2 := by
  induction d with
  | nil => simp [set, get?, Ne.symm h]
  | cons p rest ih =>
    obtain ⟨k0, v0⟩ := p
    by_cases h0 : k0 = k
    · subst h0
      simp [set, get?, Ne.symm h]
    · simp [set, h0, get?, ih]

theorem get?_erase_of_ne (d : List (κ × α)) (k k2 : κ) (h : k2 ≠ k) :
    get? (erase d k) k2 = get? d k2 := by
  induction d with
  | nil => simp [erase]
  | cons p rest ih =>
    obtain ⟨k0, v0⟩ := p
    by_cases h0 : k0 = k
    · subst h0
      simp [erase, get?, Ne.symm h]
    · simp [erase, h0, get?, ih]

theorem get?_eq_none_of_not_mem (d : List (κ × α)) (k : κ)
    (h : k ∉ d.map Prod.fst) : get? d k = none := by
  induction d with
  | nil => rfl
  | cons p rest ih =>
    obtain ⟨k0, v0⟩ := p
    simp only [List.map_cons, List.mem_cons] at h
    push_neg at h
    simp [get?, Ne.symm h.1, ih h.2]

theorem get?_erase_self (d : List (κ × α)) (k : κ) (h : UniqKeys d) :
    get? (erase d k) k = none := by
  induction d with
  | nil => rfl
  | cons p rest ih =>
    obtain ⟨k0, v0⟩ := p
    have h2 : UniqKeys rest := (List.nodup_cons.mp h).2
    by_cases h0 : k0 = k
    · subst h0
      simp only [erase, if_pos rfl]
      exact get?_eq_none_of_not_mem rest k0 (List.nodup_cons.mp h).1
    · simp [erase, h0, get?, ih h2]

theorem get?_update_self (d : List (κ × α)) (k : κ) (f : α → α) :
    get? (update d k f) k = (get? d k).map f := by
  induction d with
  | nil => rfl
  | cons p rest ih =>
    obtain ⟨k0, v0⟩ := p
    by_cases h0 : k0 = k
    · simp [update, h0, get?]
    · simp [update, h0, get?, ih]

theorem get?_update_of_ne (d : List (κ × α)) (k k2 : κ) (f : α → α)
    (h : k2 ≠ k) : get? (update d k f) k2 = get? d k2 := by
  induction d with
  | nil => rfl
  | cons p rest ih =>
    obtain ⟨k0, v0⟩ := p
    by_cases h0 : k0 = k
    · subst h0
      simp [update, get?, Ne.symm h]
    · simp [update, h0, get?, ih]

theorem map_fst_update (d : List (κ × α)) (k : κ) (f : α → α) :
    (update d k f).map Prod.fst = d.map Prod.fst := by
  induction d with
  | nil => rfl
  | cons p rest ih =>
    obtain ⟨k0, v0⟩ := p
    by_cases h0 : k0 = k
    · simp [update, h0]
    · simp [update, h0, ih]

theorem uniqKeys_update (d : List (κ × α)) (k : κ) (f : α → α)
    (h : UniqKeys d) : UniqKeys (update d k f) := by
  unfold UniqKeys
  rw [map_fst_update]
  exact h

theorem mem_of_get? (d : List (κ × α)) (k : κ) (v : α)
    (h : get? d k = some v) : (k, v) ∈ d := by
  induction d with
  | nil => simp [get?] at h
  | cons p rest ih =>
    obtain ⟨k0, v0⟩ := p
    by_cases h0 : k0 = k
    · subst h0
      simp [get?] at h
      simp [h]
    · simp [get?, h0] at h
      exact List.mem_cons_of_mem _ (ih h)

theorem mem_keys_of_get? (d : List (κ × α)) (k : κ) (v : α)
    (h : get? d k = some v) : k ∈ d.map Prod.fst := by
  have := mem_of_get? d k v h
  exact List.mem_map.mpr ⟨(k, v), this, rfl⟩

end PyDict

/-- A registry whose manifest dict stores every manifest under its own id is
well keyed. -/
theorem regWellKeyed_of_entries (r : CapabilityRegistry)
    (h : ∀ p ∈ r.manifests, (Prod.snd p).id = p.1) : RegWellKeyed r := by
  intro k m hget
  exact h (k, m) (PyDict.mem_of_get? r.manifests k m hget)

/-- A loaded cache whose entries store every capability under its manifest's
id is well keyed. -/
theorem loadedWellKeyed_of_entries (l : List (String × Capability V))
    (h : ∀ p ∈ l, (Prod.snd p).manifest.id = p.1) : LoadedWellKeyed l := by
  intro k c hget
  exact h (k, c) (PyDict.mem_of_get? l k c hget)

/-! ## Claim C4 — codec round trip and content hash -/

/-- C4: for every source string `s` (and any libraries satisfying their
round-trip contracts), decompressing the genome produced by
`CapabilityCodec.compress(s)` yields `s` again, and the returned hash is the
first 16 hex characters of SHA-256 over the uncompressed source. -/
theorem C4_compress_roundtrip_and_hash (L : PyLibs) (hL : L.Sound)
    (s : String) :
    CapabilityCodec.decompress L (CapabilityCodec.compress L s).1 = .ok s ∧
    (CapabilityCodec.compress L s).2.1 =
      (L.sha256hex (L.utf8Encode s)).take 16 := by
  obtain ⟨hz, hb, hu⟩ := hL
  constructor
  · simp [CapabilityCodec.compress, CapabilityCodec.decompress, hz, hb, hu]
  · simp only [CapabilityCodec.compress]

/-- Witness for C4 at the identity libraries and the source `"hello"`. -/
theorem C4_witness :
    CapabilityCodec.decompress idLibs
        (CapabilityCodec.compress idLibs "hello").1 = .ok "hello" ∧
    (CapabilityCodec.compress idLibs "hello").2.1 =
      (idLibs.sha256hex (idLibs.utf8Encode "hello")).take 16 :=
  C4_compress_roundtrip_and_hash idLibs
    ⟨fun _ => rfl, fun _ => rfl, fun _ => rfl⟩ "hello"

/-! ## Claim C1 — cycles are not detected -/

/-- C1 counterexample: the registry `cycReg` has the cycle `A → B → A`
reachable from `A`, yet `resolve("A")` does not fail: it returns the
complete plan `["B", "A"]`. -/
theorem edge_cyc_AB : CapabilityResolver.Edge cycReg "A" "B" :=
  ⟨manA, by decide, "B", by decide, by decide⟩

theorem edge_cyc_BA : CapabilityResolver.Edge cycReg "B" "A" :=
  ⟨manB, by decide, "A", by decide, by decide⟩

theorem C1_counterexample :
    Relation.TransGen (CapabilityResolver.Edge cycReg) "A" "A" ∧
    CapabilityResolver.resolve cycReg 10 "A" = .ok ["B", "A"] :=
  ⟨Relation.TransGen.head edge_cyc_AB (Relation.TransGen.single edge_cyc_BA),
   by decide⟩

/-- C1 (amended): the resolver keeps a single `visited` set and no visiting
stack; a repeat visit returns immediately as a successful no-op, so a cyclic
dependency graph does not make `resolve` fail with `CircularDependency` —
instead the cycle is silently broken at the re-visited node and a complete
plan is returned to the caller (shown on the two-cycle `A ↔ B`). -/
theorem C1_amended :
    (∀ (r : CapabilityRegistry) (fuel : Nat) (id : String)
        (visited result : List String), id ∈ visited → 0 < fuel →
        CapabilityResolver.visit r fuel id (visited, result) =
          .ok (visited, result)) ∧
    Relation.TransGen (CapabilityResolver.Edge cycReg) "A" "A" ∧
    CapabilityResolver.resolve cycReg 10 "A" = .ok ["B", "A"] := by
  refine ⟨?_, ?_, by decide⟩
  · intro r fuel id visited result hmem hf
    match fuel, hf with
    | fuel + 1, _ => simp [CapabilityResolver.visit, hmem]
  · exact Relation.TransGen.head edge_cyc_AB
      (Relation.TransGen.single edge_cyc_BA)

/-- Witness for C1 (amended): a repeat visit on the concrete cyclic registry
(with `"A"` already visited) succeeds without touching the state. -/
theorem C1_witness :
    CapabilityResolver.visit cycReg 3 "A" (["A"], []) = .ok (["A"], []) :=
  C1_amended.1 cycReg 3 "A" ["A"] [] (by decide) (by decide)

/-! ## Claim C5 — integrity rejection happens only on a cache miss -/

/-- C5 counterexample: after `I` is loaded once and then re-registered with
a manifest whose genome does not verify, `load("I")` does *not* fail with
`IntegrityError` — it returns the cached instance, with the non-verifying
manifest still registered. -/
theorem C5_counterexample :
    CapabilityLoader.load natEnv stI0 "I" = .ok (capI, stIGood) ∧
    stIBad.registry.get "I" = some manBad ∧
    CapabilityCodec.verify natEnv.libs manBad.genome manBad.genome_hash
      = false ∧
    CapabilityLoader.load natEnv stIBad "I" = .ok (capI, stIBad) :=
  ⟨by decide, by decide, by decide, by decide⟩

/-- C5 (amended): when the id is *not already in the loaded cache*, a
registered manifest whose genome fails verification makes `load(id)` fail
with the integrity error, leaving the loader state (in particular the
loaded map) unchanged. -/
theorem C5_amended (E : PyEnv V) (st : LoaderState V) (id : String)
    (m : CapabilityManifest)
    (hmiss : PyDict.get? st.loaded id = none)
    (hreg : st.registry.get id = some m)
    (hbad : CapabilityCodec.verify E.libs m.genome m.genome_hash = false) :
    CapabilityLoader.load E st id =
      .error ("Genome integrity check failed: " ++ id, st) := by
  simp [CapabilityLoader.load, hmiss, hreg, hbad]

/-- Witness for C5 (amended): a fresh loader over the non-verifying
`manBad` rejects `load("I")` and is left unchanged. -/
theorem C5_witness :
    CapabilityLoader.load natEnv stIBadFresh "I" =
      .error ("Genome integrity check failed: " ++ "I", stIBadFresh) :=
  C5_amended natEnv stIBadFresh "I" manBad (by decide) (by decide) (by decide)

/-! ## Claim C7 — timeout handling differs between the two executors -/

/-- C7 counterexample: a `python` job whose subprocess call raises
`TimeoutExpired` is caught by the executor's generic `except Exception`
branch and recorded with exit code `1` — not `-1` — and with the
exception's text (not `"Timeout"`) as stderr. -/
theorem C7_counterexample :
    HydraKernel.recordResult jobPy
        (HydraKernel.runJob "python" (some "print(6*7)") none none
          (.timedOut "Command timed out after 3600 seconds")) =
      { jobPy with status := "failed", exit_code := some 1,
                   output := some "",
                   error := some "Command timed out after 3600 seconds" } ∧
    (HydraKernel.recordResult jobPy
        (HydraKernel.runJob "python" (some "print(6*7)") none none
          (.timedOut "Command timed out after 3600 seconds"))).exit_code
      ≠ some (-1) :=
  ⟨by decide, by decide⟩

/-- C7 (amended): a `container` job that exceeds its timeout ends failed
with exit code `-1` and `"Timeout"` in stderr; a `python` job that exceeds
its timeout is caught by the generic exception handler and ends failed with
exit code `1` and the exception's message in stderr. -/
theorem C7_amended (rt msg : String) (code script : Option String)
    (j : JobRecord) (hcode : truthyStr code = true) :
    HydraKernel.recordResult j
        (HydraKernel.runJob "container" code script (some rt)
          (.timedOut msg)) =
      { j with status := "failed", exit_code := some (-1),
               output := some "", error := some "Timeout" } ∧
    HydraKernel.recordResult j
        (HydraKernel.runJob "python" code script (some rt)
          (.timedOut msg)) =
      { j with status := "failed", exit_code := some 1,
               output := some "", error := some msg } := by
  constructor
  · simp [HydraKernel.runJob, ContainerRuntime.run, HydraKernel.recordResult]
  · cases code with
    | none => simp [truthyStr] at hcode
    | some c =>
      have hc : c ≠ "" := by simpa [truthyStr] using hcode
      simp [HydraKernel.runJob, PythonExecutor.execute, truthyStr, hc,
            HydraKernel.recordResult]

/-- Witness for C7 (amended) at a concrete job and message. -/
theorem C7_witness :
    HydraKernel.recordResult jobPy
        (HydraKernel.runJob "container" (some "print(1)") none
          (some "docker") (.timedOut "timed out")) =
      { jobPy with status := "failed", exit_code := some (-1),
                   output := some "", error := some "Timeout" } ∧
    HydraKernel.recordResult jobPy
        (HydraKernel.runJob "python" (some "print(1)") none
          (some "docker") (.timedOut "timed out")) =
      { jobPy with status := "failed", exit_code := some 1,
                   output := some "", error := some "timed out" } :=
  C7_amended "docker" "timed out" (some "print(1)") none jobPy (by decide)

/-! ## Claim C9 — last-writer-wins store (v10) -/

/-- Version monotonicity across a single operation. -/
theorem versionOf_applyOp_mono {α} (s : DistributedStore α)
    (op : DistributedStore.Op α) (k : String) :
    s.versionOf k ≤ (s.applyOp op).versionOf k := by
  cases op with
  | setOp k2 v ver =>
    simp only [DistributedStore.applyOp, DistributedStore.set]
    by_cases hap : s.versionOf k2 ≤
        (match ver with | none => s.versionOf k2 + 1 | some v0 => v0)
    · rw [if_pos hap]
      by_cases hk : k = k2
      · subst hk
        unfold DistributedStore.versionOf
        simp only [PyDict.get?_set_self, Option.getD_some]
        exact hap
      · unfold DistributedStore.versionOf
        rw [PyDict.get?_set_of_ne s.versions k2 k _ hk]
    · rw [if_neg hap]
  | delOp k2 =>
    simp only [DistributedStore.applyOp, DistributedStore.delete]
    by_cases hp : (PyDict.get? s.data k2).isSome
    · rw [if_pos hp]
      by_cases hk : k = k2
      · subst hk
        unfold DistributedStore.versionOf
        simp only [PyDict.get?_set_self, Option.getD_some]
        omega
      · unfold DistributedStore.versionOf
        rw [PyDict.get?_set_of_ne s.versions k2 k _ hk]
    · rw [if_neg hp]

/-- Version monotonicity across an operation sequence. -/
theorem versionOf_applyOps_mono {α} (ops : List (DistributedStore.Op α)) :
    ∀ (s : DistributedStore α) (k : String),
    s.versionOf k ≤ (s.applyOps ops).versionOf k := by
  induction ops with
  | nil => intro s k; exact le_refl _
  | cons op rest ih =>
    intro s k
    calc s.versionOf k ≤ (s.applyOp op).versionOf k :=
          versionOf_applyOp_mono s op k
      _ ≤ ((s.applyOp op).applyOps rest).versionOf k := ih _ k
      _ = (s.applyOps (op :: rest)).versionOf k := rfl

/-- C9: v10 `DistributedStore.set` is last-writer-wins on a scalar per-key
version: the write is applied iff the supplied version is at least the
stored one (and then the stored version becomes the supplied one); an
omitted version always applies at `stored + 1`; `set` returns the stored
version after the call; and the stored version never decreases across any
sequence of `set`/`delete` operations. -/
theorem C9_store_last_writer_wins {α} (s : DistributedStore α) (k : String)
    (v : α) (ver : Int) :
    (s.versionOf k ≤ ver →
      (s.set k v (some ver)).1 = ver ∧
      (s.set k v (some ver)).2.get k = some v ∧
      (s.set k v (some ver)).2.versionOf k = ver) ∧
    (¬ s.versionOf k ≤ ver →
      s.set k v (some ver) = (s.versionOf k, s)) ∧
    ((s.set k v none).1 = s.versionOf k + 1 ∧
      (s.set k v none).2.get k = some v ∧
      (s.set k v none).2.versionOf k = s.versionOf k + 1) ∧
    (∀ ops : List (DistributedStore.Op α),
      s.versionOf k ≤ (s.applyOps ops).versionOf k) := by
  refine ⟨?_, ?_, ?_, fun ops => versionOf_applyOps_mono ops s k⟩
  · intro hle
    unfold DistributedStore.set
    rw [if_pos hle]
    refine ⟨rfl, ?_, ?_⟩
    · unfold DistributedStore.get
      exact PyDict.get?_set_self s.data k v
    · unfold DistributedStore.versionOf
      simp [PyDict.get?_set_self]
  · intro hgt
    unfold DistributedStore.set
    rw [if_neg hgt]
  · have hle : s.versionOf k ≤ s.versionOf k + 1 := by omega
    unfold DistributedStore.set
    rw [if_pos hle]
    refine ⟨rfl, ?_, ?_⟩
    · unfold DistributedStore.get
      exact PyDict.get?_set_self s.data k v
    · unfold DistributedStore.versionOf
      simp [PyDict.get?_set_self]

/-- Witness for C9 on the empty store: an applied write, a refused stale
write, a defaulted write, and monotonicity over a concrete op sequence. -/
theorem C9_witness :
    (({} : DistributedStore Nat).versionOf "k" ≤ 5 ∧
      (({} : DistributedStore Nat).set "k" 7 (some 5)).1 = 5 ∧
      (({} : DistributedStore Nat).set "k" 7 (some 5)).2.get "k" = some 7 ∧
      (({} : DistributedStore Nat).set "k" 7 (some 5)).2.versionOf "k" = 5) ∧
    (¬ ({} : DistributedStore Nat).versionOf "k" ≤ (-1) ∧
      ({} : DistributedStore Nat).set "k" 7 (some (-1)) =
        (({} : DistributedStore Nat).versionOf "k",
          ({} : DistributedStore Nat))) ∧
    ({} : DistributedStore Nat).versionOf "k" ≤
      (({} : DistributedStore Nat).applyOps
        [.setOp "k" 3 none, .delOp "k"]).versionOf "k" := by
  have h5 : ({} : DistributedStore Nat).versionOf "k" ≤ 5 := by decide
  have hm1 : ¬ ({} : DistributedStore Nat).versionOf "k" ≤ (-1) := by decide
  exact ⟨⟨h5, (C9_store_last_writer_wins {} "k" 7 5).1 h5⟩,
    ⟨hm1, ((C9_store_last_writer_wins {} "k" 7 (-1)).2.1 hm1)⟩,
    (C9_store_last_writer_wins {} "k" 7 0).2.2.2
      [.setOp "k" 3 none, .delOp "k"]⟩

/-! ## Claim C10 — the loaded cache bypasses verification -/

/-- C10: for a capability id present in the loaded cache, `load(id)` returns
the cached instance unchanged and performs no integrity verification — the
registry (which may meanwhile hold a different generation) is not even
consulted and the loader state is unchanged; `deactivate` never evicts a
loaded entry (only `hot_swap` does). -/
theorem C10_cached_load {V} (E : PyEnv V) (st : LoaderState V) (id : String)
    (cap : Capability V) (h : PyDict.get? st.loaded id = some cap) :
    CapabilityLoader.load E st id = .ok (cap, st) ∧
    ∀ k, (PyDict.get? (CapabilityLoader.deactivate st k).loaded id).isSome
      = true := by
  constructor
  · simp [CapabilityLoader.load, h]
  · intro k
    unfold CapabilityLoader.deactivate
    cases hk : PyDict.get? st.active k with
    | none => simp [h]
    | some c =>
      simp only
      by_cases hek : id = k
      · subst hek
        rw [PyDict.get?_update_self st.loaded id _, h]
        rfl
      · rw [PyDict.get?_update_of_ne st.loaded k id _ hek, h]
        rfl

/-- Witness for C10 on the re-registered state `stIBad`: the cache still
holds the old generation `capI` (old source), `load` returns it although
the registry holds the non-verifying `manBad`, and deactivation keeps the
cache entry. -/
theorem C10_witness :
    PyDict.get? stIBad.loaded "I" = some capI ∧
    CapabilityLoader.load natEnv stIBad "I" = .ok (capI, stIBad) ∧
    (PyDict.get? (CapabilityLoader.deactivate stIBad "I").loaded "I").isSome
      = true :=
  ⟨by decide, (C10_cached_load natEnv stIBad "I" capI (by decide)).1,
   (C10_cached_load natEnv stIBad "I" capI (by decide)).2 "I"⟩

/-! ## Claim C8 — the by-type index under re-registration -/

/-- C8 counterexample: re-registering id `A` with a different `genome_hash`
appends `A` to its type bucket again, so the bucket holds `A` twice and
`list_by_type` returns a duplicate manifest. -/
theorem C8_counterexample :
    (CapabilityRegistry.empty.register manT1).1 = true ∧
    CapabilityRegistry.typeIds replReg .core = ["A", "A"] ∧
    CapabilityRegistry.list_by_type replReg .core = [manT2, manT2] ∧
    ¬ (CapabilityRegistry.list_by_type replReg .core).Nodup :=
  ⟨by decide, by decide, by decide, by decide⟩

theorem typeIds_doRegister (r : CapabilityRegistry) (m : CapabilityManifest)
    (t : CapabilityType) :
    (CapabilityRegistry.doRegister r m).typeIds t =
      if t = m.type then r.typeIds t ++ [m.id] else r.typeIds t := by
  unfold CapabilityRegistry.typeIds CapabilityRegistry.doRegister
  by_cases ht : t = m.type
  · subst ht
    rw [if_pos rfl]
    simp [PyDict.get?_set_self]
  · rw [if_neg ht, PyDict.get?_set_of_ne _ _ _ _ ht]

theorem get_doRegister (r : CapabilityRegistry) (m : CapabilityManifest)
    (id : String) :
    (CapabilityRegistry.doRegister r m).get id =
      if id = m.id then some m else r.get id := by
  unfold CapabilityRegistry.get CapabilityRegistry.doRegister
  by_cases hid : id = m.id
  · subst hid
    rw [if_pos rfl]
    simp [PyDict.get?_set_self]
  · rw [if_neg hid, PyDict.get?_set_of_ne _ _ _ _ hid]

theorem register_snd (r : CapabilityRegistry) (m : CapabilityManifest) :
    (r.register m).2 = r ∨
    (r.register m).2 = CapabilityRegistry.doRegister r m := by
  unfold CapabilityRegistry.register
  cases PyDict.get? r.manifests m.id with
  | none => right; rfl
  | some existing =>
    by_cases hh : existing.genome_hash = m.genome_hash
    · left; simp [hh]
    · right; simp [hh]

theorem c8_union_step (r : CapabilityRegistry) (m : CapabilityManifest)
    (h : ∀ id, (∃ t, id ∈ r.typeIds t) ↔ (r.get id).isSome) :
    ∀ id, (∃ t, id ∈ (r.register m).2.typeIds t) ↔
      ((r.register m).2.get id).isSome := by
  rcases register_snd r m with he | he
  · rw [he]; exact h
  · rw [he]
    intro id
    constructor
    · rintro ⟨t, ht⟩
      rw [typeIds_doRegister] at ht
      rw [get_doRegister]
      by_cases hid : id = m.id
      · simp [hid]
      · rw [if_neg hid]
        by_cases htt : t = m.type
        · rw [if_pos htt] at ht
          rcases List.mem_append.mp ht with hold | hnew
          · exact (h id).mp ⟨t, hold⟩
          · exact absurd (List.mem_singleton.mp hnew) hid
        · rw [if_neg htt] at ht
          exact (h id).mp ⟨t, ht⟩
    · intro hs
      rw [get_doRegister] at hs
      by_cases hid : id = m.id
      · refine ⟨m.type, ?_⟩
        rw [typeIds_doRegister, if_pos rfl]
        simp [hid]
      · rw [if_neg hid] at hs
        obtain ⟨t, ht⟩ := (h id).mpr hs
        refine ⟨t, ?_⟩
        rw [typeIds_doRegister]
        by_cases htt : t = m.type
        · rw [if_pos htt]
          exact List.mem_append_left _ ht
        · rw [if_neg htt]
          exact ht

theorem c8_union_fold (ms : List CapabilityManifest) :
    ∀ r : CapabilityRegistry,
    (∀ id, (∃ t, id ∈ r.typeIds t) ↔ (r.get id).isSome) →
    ∀ id, (∃ t, id ∈ (ms.foldl (fun r0 m => (r0.register m).2) r).typeIds t)
      ↔ ((ms.foldl (fun r0 m => (r0.register m).2) r).get id).isSome := by
  induction ms with
  | nil => intro r h; exact h
  | cons m rest ih =>
    intro r h
    exact ih (r.register m).2 (c8_union_step r m h)

theorem c8_partition_fold (ms : List CapabilityManifest) :
    ∀ (pre : List CapabilityManifest) (r : CapabilityRegistry),
    (∀ a ∈ pre, ∀ b ∈ ms, a.id = b.id → a.genome_hash = b.genome_hash) →
    ms.Pairwise (fun a b => a.id = b.id → a.genome_hash = b.genome_hash) →
    RegWellKeyed r →
    (∀ t id, id ∈ r.typeIds t → ∃ mm, r.get id = some mm ∧ mm.type = t) →
    (∀ t, (r.typeIds t).Nodup) →
    (∀ id mm, r.get id = some mm → mm ∈ pre) →
    RegWellKeyed (ms.foldl (fun r0 m => (r0.register m).2) r) ∧
    (∀ t id, id ∈ (ms.foldl (fun r0 m => (r0.register m).2) r).typeIds t →
      ∃ mm, (ms.foldl (fun r0 m => (r0.register m).2) r).get id = some mm ∧
        mm.type = t) ∧
    (∀ t, ((ms.foldl (fun r0 m => (r0.register m).2) r).typeIds t).Nodup) := by
  induction ms with
  | nil =>
    intro pre r _ _ hWK hInv2 hInv3 _
    exact ⟨hWK, hInv2, hInv3⟩
  | cons m rest ih =>
    intro pre r hcross hpw hWK hInv2 hInv3 hInv4
    have hpw1 := (List.pairwise_cons.mp hpw).1
    have hpw2 := (List.pairwise_cons.mp hpw).2
    simp only [List.foldl_cons]
    cases hg : PyDict.get? r.manifests m.id with
    | some existing =>
      have hgid : r.get m.id = some existing := hg
      have hidm : existing.id = m.id := hWK _ _ hgid
      have hmem : existing ∈ pre := hInv4 _ _ hgid
      have hhash : existing.genome_hash = m.genome_hash :=
        hcross existing hmem m (List.mem_cons_self m rest) hidm
      have hreg : (r.register m).2 = r := by
        simp [CapabilityRegistry.register, hg, hhash]
      rw [hreg]
      refine ih (pre ++ [m]) r ?_ hpw2 hWK hInv2 hInv3 ?_
      · intro a ha b hb
        rcases List.mem_append.mp ha with hp | hm
        · exact hcross a hp b (List.mem_cons_of_mem m hb)
        · rw [List.mem_singleton.mp hm]
          exact hpw1 b hb
      · intro id mm hgt
        exact List.mem_append_left _ (hInv4 id mm hgt)
    | none =>
      have hgnone : r.get m.id = none := hg
      have hreg : (r.register m).2 = CapabilityRegistry.doRegister r m := by
        simp [CapabilityRegistry.register, hg]
      rw [hreg]
      have hfresh : ∀ t, m.id ∉ r.typeIds t := by
        intro t hmemt
        obtain ⟨mm, hgt, _⟩ := hInv2 t m.id hmemt
        rw [hgnone] at hgt
        exact Option.noConfusion hgt
      have hWK2 : RegWellKeyed (CapabilityRegistry.doRegister r m) := by
        intro k mm hget
        rw [get_doRegister] at hget
        by_cases hk : k = m.id
        · rw [if_pos hk] at hget
          cases hget
          exact hk.symm
        · rw [if_neg hk] at hget
          exact hWK _ _ hget
      have hInv22 : ∀ t id,
          id ∈ (CapabilityRegistry.doRegister r m).typeIds t →
          ∃ mm, (CapabilityRegistry.doRegister r m).get id = some mm ∧
            mm.type = t := by
        intro t id hmemt
        rw [typeIds_doRegister] at hmemt
        by_cases htt : t = m.type
        · rw [if_pos htt] at hmemt
          rcases List.mem_append.mp hmemt with hold | hnew
          · have hne : id ≠ m.id := by
              intro he
              exact hfresh t (he ▸ hold)
            obtain ⟨mm, hgt, hty⟩ := hInv2 t id hold
            rw [get_doRegister, if_neg hne]
            exact ⟨mm, hgt, hty⟩
          · rw [List.mem_singleton.mp hnew, get_doRegister, if_pos rfl]
            exact ⟨m, rfl, htt.symm⟩
        · rw [if_neg htt] at hmemt
          have hne : id ≠ m.id := by
            intro he
            exact hfresh t (he ▸ hmemt)
          obtain ⟨mm, hgt, hty⟩ := hInv2 t id hmemt
          rw [get_doRegister, if_neg hne]
          exact ⟨mm, hgt, hty⟩
      have hInv32 : ∀ t, ((CapabilityRegistry.doRegister r m).typeIds t).Nodup := by
        intro t
        rw [typeIds_doRegister]
        by_cases htt : t = m.type
        · rw [if_pos htt]
          rw [List.nodup_append]
          refine ⟨hInv3 t, List.nodup_singleton _, ?_⟩
          intro x hx hxm
          rw [List.mem_singleton.mp hxm] at hx
          exact hfresh t hx
        · rw [if_neg htt]
          exact hInv3 t
      have hInv42 : ∀ id mm,
          (CapabilityRegistry.doRegister r m).get id = some mm →
          mm ∈ pre ++ [m] := by
        intro id mm hget
        rw [get_doRegister] at hget
        by_cases hk : id = m.id
        · rw [if_pos hk] at hget
          cases hget
          exact List.mem_append_right _ (List.mem_singleton_self m)
        · rw [if_neg hk] at hget
          exact List.mem_append_left _ (hInv4 _ _ hget)
      refine ih (pre ++ [m]) _ ?_ hpw2 hWK2 hInv22 hInv32 hInv42
      intro a ha b hb
      rcases List.mem_append.mp ha with hp | hm
      · exact hcross a hp b (List.mem_cons_of_mem m hb)
      · rw [List.mem_singleton.mp hm]
        exact hpw1 b hb

/-- C8 (amended): the union of the type buckets is always exactly the set of
registered ids, but a `register` that replaces an existing id (different
`genome_hash`) appends the id to its bucket again without removing the old
entry, so ids can repeat (see the counterexample).  When no call replaces an
existing id with a different hash, the index is an exact partition: every
bucket is duplicate-free, every id lies in exactly one bucket, and
`list_by_type` returns no duplicates. -/
theorem C8_amended (ms : List CapabilityManifest) :
    (∀ id, (∃ t, id ∈ (regOf ms).typeIds t) ↔ ((regOf ms).get id).isSome) ∧
    (ms.Pairwise (fun a b => a.id = b.id → a.genome_hash = b.genome_hash) →
      (∀ t, ((regOf ms).typeIds t).Nodup) ∧
      (∀ t u id, id ∈ (regOf ms).typeIds t → id ∈ (regOf ms).typeIds u →
        t = u) ∧
      (∀ t, ((regOf ms).list_by_type t).Nodup)) := by
  have hbase1 : ∀ id, (∃ t, id ∈ CapabilityRegistry.empty.typeIds t) ↔
      (CapabilityRegistry.empty.get id).isSome := by
    intro id
    constructor
    · rintro ⟨t, ht⟩
      simp [CapabilityRegistry.typeIds, CapabilityRegistry.empty,
        PyDict.get?] at ht
    · intro hs
      simp [CapabilityRegistry.get, CapabilityRegistry.empty,
        PyDict.get?] at hs
  constructor
  · exact c8_union_fold ms CapabilityRegistry.empty hbase1
  · intro hpw
    obtain ⟨hWK, hInv2, hInv3⟩ := c8_partition_fold ms [] CapabilityRegistry.empty
      (by intro a ha; simp at ha) hpw
      (by intro k mm h
          simp [CapabilityRegistry.get, CapabilityRegistry.empty,
            PyDict.get?] at h)
      (by intro t id h
          simp [CapabilityRegistry.typeIds, CapabilityRegistry.empty,
            PyDict.get?] at h)
      (by intro t
          simp [CapabilityRegistry.typeIds, CapabilityRegistry.empty,
            PyDict.get?])
      (by intro id mm h
          simp [CapabilityRegistry.get, CapabilityRegistry.empty,
            PyDict.get?] at h)
    refine ⟨hInv3, ?_, ?_⟩
    · intro t u id ht hu
      obtain ⟨mm1, hg1, hty1⟩ := hInv2 t id ht
      obtain ⟨mm2, hg2, hty2⟩ := hInv2 u id hu
      rw [hg1] at hg2
      cases hg2
      rw [← hty1, ← hty2]
    · intro t
      unfold CapabilityRegistry.list_by_type
      refine List.Nodup.filterMap ?_ (hInv3 t)
      intro a a2 b hb hb2
      have h1 : (regOf ms).get a = some b := hb
      have h2 : (regOf ms).get a2 = some b := hb2
      rw [← hWK a b h1, ← hWK a2 b h2]

/-- Witness for C8 (amended) at a concrete duplicate-free register
sequence. -/
theorem C8_witness :
    (∀ id, (∃ t, id ∈ (regOf [manA, manB]).typeIds t) ↔
      ((regOf [manA, manB]).get id).isSome) ∧
    ([manA, manB].Pairwise
      (fun a b => a.id = b.id → a.genome_hash = b.genome_hash)) ∧
    (∀ t, ((regOf [manA, manB]).typeIds t).Nodup) ∧
    (∀ t, ((regOf [manA, manB]).list_by_type t).Nodup) := by
  have hpw : [manA, manB].Pairwise
      (fun a b => a.id = b.id → a.genome_hash = b.genome_hash) := by
    refine List.pairwise_cons.mpr ⟨?_, ?_⟩
    · intro b hb hid
      rw [List.mem_singleton.mp hb] at hid ⊢
      exact absurd hid (by decide)
    · exact List.pairwise_singleton _ _
  exact ⟨(C8_amended [manA, manB]).1, hpw,
    ((C8_amended [manA, manB]).2 hpw).1,
    ((C8_amended [manA, manB]).2 hpw).2.2⟩

/-! ## Claim C2 — resolver ordering and the provider-alias duplicate

The depth-first traversal invariant: `grey` is the implicit recursion
stack.  On an acyclic resolved graph every appended entry's dependencies
have already been appended. -/

namespace CapabilityResolver

theorem rid_get (r : CapabilityRegistry) (n id2 : String)
    (m : CapabilityManifest) (h : substStep r n = (id2, some m)) :
    r.get id2 = some m := by
  unfold substStep at h
  cases hg : r.get n with
  | some m0 =>
    simp only [hg] at h
    injection h with h1 h2
    subst h1
    rw [hg, h2]
  | none =>
    simp only [hg] at h
    cases hp : r.find_provider n with
    | some p =>
      simp only [hp] at h
      injection h with h1 h2
      subst h1
      exact h2
    | none =>
      simp only [hp] at h
      injection h with h1 h2
      exact absurd h2 (by simp)

theorem chainTo_concat (r : CapabilityRegistry) (g : List String)
    (n t : String) :
    chainTo r (g ++ [n]) t ↔ chainTo r g (rid r n) ∧ Edge r (rid r n) t := by
  induction g with
  | nil => simp [chainTo]
  | cons a g2 ihg =>
    cases g2 with
    | nil => simp [chainTo]
    | cons b g3 =>
      simp only [List.cons_append, chainTo, List.append_eq] at ihg ⊢
      rw [ihg, and_assoc]

theorem chainTo_cycle (r : CapabilityRegistry) :
    ∀ (g : List String) (t : String), chainTo r g t →
    ∀ n ∈ g, Relation.TransGen (Edge r) (rid r n) t := by
  intro g
  induction g with
  | nil =>
    intro t _ n hn
    simp at hn
  | cons a g2 ihg =>
    intro t h n hn
    cases g2 with
    | nil =>
      rw [List.mem_singleton.mp hn]
      exact Relation.TransGen.single h
    | cons b g3 =>
      obtain ⟨he, hch⟩ := h
      rcases List.mem_cons.mp hn with he2 | hm
      · rw [he2]
        exact Relation.TransGen.head he (ihg t hch b (List.mem_cons_self b g3))
      · exact ihg t hch n hm

theorem ordered_append_one (r : CapabilityRegistry) (res : List String)
    (a : String) (m : CapabilityManifest) (hord : Ordered r res)
    (hget : r.get a = some m)
    (hdeps : ∀ d ∈ m.dependencies, rid r d ∈ res) :
    Ordered r (res ++ [a]) := by
  intro k hk m2 hget2 d hd
  by_cases hkl : k < res.length
  · rw [List.get_append k hkl] at hget2
    rw [List.take_append_of_le_length (le_of_lt hkl)]
    exact hord k hkl m2 hget2 d hd
  · have hke : k = res.length := by
      have hlen : k < res.length + 1 := by simpa using hk
      omega
    subst hke
    have hgetk : (res ++ [a]).get ⟨res.length, hk⟩ = a :=
      List.get_of_append rfl rfl
    rw [hgetk, hget] at hget2
    cases hget2
    rw [List.take_append_of_le_length (le_refl _), List.take_length]
    exact hdeps d hd

theorem mem_take_mono (l : List String) (x : String) (j k : Nat)
    (hjk : j ≤ k) (h : x ∈ l.take j) : x ∈ l.take k := by
  have h1 : l.take j = (l.take k).take j := by
    rw [List.take_take, min_eq_left hjk]
  rw [h1] at h
  exact List.take_subset _ _ h

theorem mem_take_getElem (l : List String) (x : String) (k : Nat)
    (h : x ∈ l.take k) :
    ∃ j, ∃ hj : j < l.length, j < k ∧ l.get ⟨j, hj⟩ = x := by
  obtain ⟨j, hj, he⟩ := List.mem_iff_getElem.mp h
  have hjl : j < l.length :=
    lt_of_lt_of_le hj (by simpa using List.length_take_le k l)
  refine ⟨j, hjl, ?_, ?_⟩
  · simp at hj
    omega
  · rw [← he]
    simp [List.getElem_take]

theorem ordered_transGen (r : CapabilityRegistry) (l : List String)
    (hord : Ordered r l) :
    ∀ k (hk : k < l.length) y,
      Relation.TransGen (Edge r) (l.get ⟨k, hk⟩) y → y ∈ l.take k := by
  intro k hk y htg
  induction htg with
  | single e =>
    obtain ⟨m, hget, d, hd, hridd⟩ := e
    rw [← hridd]
    exact hord k hk m hget d hd
  | tail htg2 e ih2 =>
    obtain ⟨j, hj, hjk, hje⟩ := mem_take_getElem l _ k ih2
    obtain ⟨m, hgetz, d, hd, hridd⟩ := e
    rw [← hje] at hgetz
    have hmem : rid r d ∈ l.take j := hord j hj m hgetz d hd
    rw [← hridd]
    exact mem_take_mono l _ j k (le_of_lt hjk) hmem

/-- The invariant carried through one `visit` call (stated as the induction
hypothesis shared between `visit` and the dependency fold). -/
theorem visitFold_inv (r : CapabilityRegistry) (fuel : Nat)
    (hv : ∀ id grey visited result v res,
      visit r fuel id (visited, result) = .ok (v, res) →
      (∀ g ∈ grey, g ∈ visited) →
      chainTo r grey (rid r id) →
      BlackOK r grey visited result →
      Ordered r result →
      ((∀ x ∈ visited, x ∈ v) ∧ (∃ tl, res = result ++ tl) ∧
        BlackOK r grey v res ∧ Ordered r res ∧ rid r id ∈ res)) :
    ∀ (ds grey visited result v res : List String),
      visitFold (visit r fuel) ds (visited, result) = .ok (v, res) →
      (∀ g ∈ grey, g ∈ visited) →
      (∀ d ∈ ds, chainTo r grey (rid r d)) →
      BlackOK r grey visited result →
      Ordered r result →
      ((∀ x ∈ visited, x ∈ v) ∧ (∃ tl, res = result ++ tl) ∧
        BlackOK r grey v res ∧ Ordered r res ∧ ∀ d ∈ ds, rid r d ∈ res) := by
  intro ds
  induction ds with
  | nil =>
    intro grey visited result v res hok hg hch hb hord
    simp only [visitFold, Except.ok.injEq, Prod.mk.injEq] at hok
    obtain ⟨h1, h2⟩ := hok
    subst h1
    subst h2
    exact ⟨fun x hx => hx, ⟨[], by simp⟩, hb, hord, by simp⟩
  | cons d ds2 ih =>
    intro grey visited result v res hok hg hch hb hord
    simp only [visitFold] at hok
    cases hv1 : visit r fuel d (visited, result) with
    | error e =>
      rw [hv1] at hok
      exact absurd hok (by simp)
    | ok st1 =>
      obtain ⟨v1, res1⟩ := st1
      rw [hv1] at hok
      simp only at hok
      have h1 := hv d grey visited result v1 res1 hv1 hg
        (hch d (List.mem_cons_self d ds2)) hb hord
      obtain ⟨hvis1, ⟨t1, ht1⟩, hb1, hord1, hrid1⟩ := h1
      have h2 := ih grey v1 res1 v res hok
        (fun g hg2 => hvis1 g (hg g hg2))
        (fun d2 hd2 => hch d2 (List.mem_cons_of_mem d hd2)) hb1 hord1
      obtain ⟨hvis2, ⟨t2, ht2⟩, hb2, hord2, hrids⟩ := h2
      refine ⟨fun x hx => hvis2 x (hvis1 x hx),
        ⟨t1 ++ t2, by rw [ht2, ht1, List.append_assoc]⟩, hb2, hord2, ?_⟩
      intro d2 hd2
      rcases List.mem_cons.mp hd2 with he | hm
      · rw [he, ht2]
        exact List.mem_append_left _ hrid1
      · exact hrids d2 hm

/-- On an acyclic resolved graph, a successful `visit` extends the result by
entries whose dependencies (resolved) all appear earlier, and resolves the
visited name itself into the result. -/
theorem visit_inv (r : CapabilityRegistry) (acy : Acyclic r) :
    ∀ (fuel : Nat) (id : String) (grey visited result v res : List String),
      visit r fuel id (visited, result) = .ok (v, res) →
      (∀ g ∈ grey, g ∈ visited) →
      chainTo r grey (rid r id) →
      BlackOK r grey visited result →
      Ordered r result →
      ((∀ x ∈ visited, x ∈ v) ∧ (∃ tl, res = result ++ tl) ∧
        BlackOK r grey v res ∧ Ordered r res ∧ rid r id ∈ res) := by
  intro fuel
  induction fuel with
  | zero =>
    intro id grey visited result v res hok
    simp [visit] at hok
  | succ fuel ih =>
    intro id grey visited result v res hok hg hch hb hord
    simp only [visit] at hok
    by_cases hmem : id ∈ visited
    · rw [if_pos hmem] at hok
      simp only [Except.ok.injEq, Prod.mk.injEq] at hok
      obtain ⟨h1, h2⟩ := hok
      subst h1
      subst h2
      have hng : id ∉ grey := by
        intro hgrey
        exact acy (rid r id) (chainTo_cycle r grey (rid r id) hch id hgrey)
      exact ⟨fun x hx => hx, ⟨[], by simp⟩, hb, hord, hb id hmem hng⟩
    · rw [if_neg hmem] at hok
      cases hsub : substStep r id with
      | mk id2 om =>
        cases om with
        | none =>
          simp only [hsub] at hok
          exact absurd hok (by simp)
        | some m =>
          simp only [hsub] at hok
          cases hfold : visitFold (visit r fuel) m.dependencies
              (visited ++ [id], result) with
          | error e =>
            rw [hfold] at hok
            exact absurd hok (by simp)
          | ok st2 =>
            obtain ⟨v2, res2⟩ := st2
            rw [hfold] at hok
            simp only [Except.ok.injEq, Prod.mk.injEq] at hok
            obtain ⟨h1, h2⟩ := hok
            subst h1
            subst h2
            have hrid : rid r id = id2 := by
              unfold rid
              rw [hsub]
            have hget2 : r.get id2 = some m := rid_get r id id2 m hsub
            have hg1 : ∀ g ∈ grey ++ [id], g ∈ visited ++ [id] := by
              intro g hg2
              rcases List.mem_append.mp hg2 with hga | hgb
              · exact List.mem_append_left _ (hg g hga)
              · exact List.mem_append_right _ hgb
            have hch1 : ∀ d ∈ m.dependencies,
                chainTo r (grey ++ [id]) (rid r d) := by
              intro d hd
              rw [chainTo_concat]
              refine ⟨hch, ?_⟩
              rw [hrid]
              exact ⟨m, hget2, d, hd, rfl⟩
            have hb1 : BlackOK r (grey ++ [id]) (visited ++ [id]) result := by
              intro n hn hng
              rcases List.mem_append.mp hn with hna | hnb
              · exact hb n hna (fun hgr => hng (List.mem_append_left _ hgr))
              · exact absurd (List.mem_append_right grey hnb) hng
            have hfi := visitFold_inv r fuel ih m.dependencies (grey ++ [id])
              (visited ++ [id]) result v2 res2 hfold hg1 hch1 hb1 hord
            obtain ⟨hvis2, ⟨t2, ht2⟩, hb2, hord2, hrids⟩ := hfi
            refine ⟨fun x hx => hvis2 x (List.mem_append_left _ hx),
              ⟨t2 ++ [id2], by rw [ht2, List.append_assoc]⟩, ?_, ?_, ?_⟩
            · intro n hn hng
              by_cases hni : n = id
              · rw [hni, hrid]
                exact List.mem_append_right _ (List.mem_singleton_self id2)
              · have hng1 : n ∉ grey ++ [id] := by
                  intro hn2
                  rcases List.mem_append.mp hn2 with hn3 | hn4
                  · exact hng hn3
                  · exact hni (List.mem_singleton.mp hn4)
                exact List.mem_append_left _ (hb2 n hn hng1)
            · exact ordered_append_one r res2 id2 m hord2 hget2 hrids
            · rw [hrid]
              exact List.mem_append_right _ (List.mem_singleton_self id2)

end CapabilityResolver

namespace CapabilityResolver

/-- The dependency fold preserves the freshness/duplication invariant when
every traversed name is a registered id. -/
theorem visitFold_nodup (r : CapabilityRegistry) (hNA : DirectDeps r)
    (fuel : Nat)
    (hv : ∀ id visited result v res,
      visit r fuel id (visited, result) = .ok (v, res) →
      ((r.get id).isSome ∨ id ∈ visited) →
      ∃ tl, res = result ++ tl ∧ tl.Nodup ∧
        (∀ x ∈ tl, x ∉ visited ∧ x ∈ v) ∧ (∀ x ∈ visited, x ∈ v)) :
    ∀ (ds visited result v res : List String),
      visitFold (visit r fuel) ds (visited, result) = .ok (v, res) →
      (∀ d ∈ ds, (r.get d).isSome) →
      ∃ tl, res = result ++ tl ∧ tl.Nodup ∧
        (∀ x ∈ tl, x ∉ visited ∧ x ∈ v) ∧ (∀ x ∈ visited, x ∈ v) := by
  intro ds
  induction ds with
  | nil =>
    intro visited result v res hok _
    simp only [visitFold, Except.ok.injEq, Prod.mk.injEq] at hok
    obtain ⟨h1, h2⟩ := hok
    subst h1
    subst h2
    exact ⟨[], by simp, List.nodup_nil, by simp, fun x hx => hx⟩
  | cons d ds2 ih =>
    intro visited result v res hok hds
    simp only [visitFold] at hok
    cases hv1 : visit r fuel d (visited, result) with
    | error e =>
      rw [hv1] at hok
      exact absurd hok (by simp)
    | ok st1 =>
      obtain ⟨v1, res1⟩ := st1
      rw [hv1] at hok
      simp only at hok
      obtain ⟨t1, ht1, hn1, hf1, hm1⟩ := hv d visited result v1 res1 hv1
        (Or.inl (hds d (List.mem_cons_self d ds2)))
      obtain ⟨t2, ht2, hn2, hf2, hm2⟩ := ih v1 res1 v res hok
        (fun d2 hd2 => hds d2 (List.mem_cons_of_mem d hd2))
      refine ⟨t1 ++ t2, by rw [ht2, ht1, List.append_assoc], ?_, ?_, ?_⟩
      · rw [List.nodup_append]
        refine ⟨hn1, hn2, ?_⟩
        intro x hx1 hx2
        exact (hf2 x hx2).1 ((hf1 x hx1).2)
      · intro x hx
        rcases List.mem_append.mp hx with hxa | hxb
        · exact ⟨(hf1 x hxa).1, hm2 x ((hf1 x hxa).2)⟩
        · exact ⟨fun hxv => (hf2 x hxb).1 (hm1 x hxv), (hf2 x hxb).2⟩
      · exact fun x hx => hm2 x (hm1 x hx)

/-- When every dependency name is a registered id, a successful `visit`
appends only fresh ids: no duplicates arise. -/
theorem visit_nodup (r : CapabilityRegistry) (hNA : DirectDeps r) :
    ∀ (fuel : Nat) (id : String) (visited result v res : List String),
      visit r fuel id (visited, result) = .ok (v, res) →
      ((r.get id).isSome ∨ id ∈ visited) →
      ∃ tl, res = result ++ tl ∧ tl.Nodup ∧
        (∀ x ∈ tl, x ∉ visited ∧ x ∈ v) ∧ (∀ x ∈ visited, x ∈ v) := by
  intro fuel
  induction fuel with
  | zero =>
    intro id visited result v res hok
    simp [visit] at hok
  | succ fuel ih =>
    intro id visited result v res hok hid
    simp only [visit] at hok
    by_cases hmem : id ∈ visited
    · rw [if_pos hmem] at hok
      simp only [Except.ok.injEq, Prod.mk.injEq] at hok
      obtain ⟨h1, h2⟩ := hok
      subst h1
      subst h2
      exact ⟨[], by simp, List.nodup_nil, by simp, fun x hx => hx⟩
    · rw [if_neg hmem] at hok
      have hsome : (r.get id).isSome := hid.resolve_right hmem
      obtain ⟨m, hm⟩ := Option.isSome_iff_exists.mp hsome
      have hsub : substStep r id = (id, some m) := by
        unfold substStep
        rw [hm]
      rw [hsub] at hok
      simp only at hok
      cases hfold : visitFold (visit r fuel) m.dependencies
          (visited ++ [id], result) with
      | error e =>
        rw [hfold] at hok
        exact absurd hok (by simp)
      | ok st2 =>
        obtain ⟨v2, res2⟩ := st2
        rw [hfold] at hok
        simp only [Except.ok.injEq, Prod.mk.injEq] at hok
        obtain ⟨h1, h2⟩ := hok
        subst h1
        subst h2
        obtain ⟨t2, ht2, hn2, hf2, hm2⟩ := visitFold_nodup r hNA fuel ih
          m.dependencies (visited ++ [id]) result v2 res2 hfold
          (fun d hd => hNA id m hm d hd)
        have hidin : id ∈ visited ++ [id] :=
          List.mem_append_right _ (List.mem_singleton_self id)
        refine ⟨t2 ++ [id], by rw [ht2, List.append_assoc], ?_, ?_, ?_⟩
        · rw [List.nodup_append]
          refine ⟨hn2, List.nodup_singleton _, ?_⟩
          intro x hx1 hx2
          rw [List.mem_singleton.mp hx2] at hx1
          exact (hf2 id hx1).1 hidin
        · intro x hx
          rcases List.mem_append.mp hx with hxa | hxb
          · refine ⟨fun hxv => (hf2 x hxa).1 (List.mem_append_left _ hxv),
              (hf2 x hxa).2⟩
          · rw [List.mem_singleton.mp hxb]
            exact ⟨hmem, hm2 id hidin⟩
        · exact fun x hx => hm2 x (List.mem_append_left _ hx)

end CapabilityResolver

/-- Every edge of the alias registry runs from `X` to `P`. -/
theorem edge_aliasReg (a b : String)
    (h : CapabilityResolver.Edge aliasReg a b) : a = "X" ∧ b = "P" := by
  obtain ⟨m, hget, d, hd, hridd⟩ := h
  have hmem : a ∈ aliasReg.manifests.map Prod.fst :=
    PyDict.mem_keys_of_get? _ _ _ hget
  have hkeys : aliasReg.manifests.map Prod.fst = ["P", "X"] := by decide
  rw [hkeys] at hmem
  simp only [List.mem_cons, List.not_mem_nil, or_false] at hmem
  rcases hmem with hP | hX
  · subst hP
    have hm : m = manP := by
      have hc : aliasReg.get "P" = some manP := by decide
      rw [hc] at hget
      exact (Option.some.injEq _ _).mp hget.symm
    rw [hm] at hd
    have hdep : manP.dependencies = [] := by decide
    rw [hdep] at hd
    exact absurd hd (List.not_mem_nil d)
  · subst hX
    refine ⟨rfl, ?_⟩
    have hm : m = manX := by
      have hc : aliasReg.get "X" = some manX := by decide
      rw [hc] at hget
      exact (Option.some.injEq _ _).mp hget.symm
    rw [hm] at hd
    have hdep : manX.dependencies = ["N", "P"] := by decide
    rw [hdep] at hd
    rcases List.mem_cons.mp hd with hN | hP2
    · rw [hN] at hridd
      rw [← hridd]
      decide
    · rw [List.mem_singleton.mp hP2] at hridd
      rw [← hridd]
      decide

/-- The alias registry is acyclic. -/
theorem aliasReg_acyclic : CapabilityResolver.Acyclic aliasReg := by
  intro a htg
  have hXP : ∀ x y, Relation.TransGen (CapabilityResolver.Edge aliasReg) x y →
      x = "X" ∧ y = "P" := by
    intro x y h
    induction h with
    | single e => exact edge_aliasReg _ _ e
    | tail h2 e ih => exact ⟨ih.1, (edge_aliasReg _ _ e).2⟩
  have h1 := (hXP a a htg).1
  have h2 := (hXP a a htg).2
  rw [h1] at h2
  exact absurd h2 (by decide)

/-- C2 counterexample: the alias registry is acyclic and `X` is a registered
id with a finite closure, yet `resolve("X")` lists `P` twice — once for the
provides-alias `N` and once for the id `P` — because the visited set records
the pre-substitution name. -/
theorem C2_counterexample :
    CapabilityResolver.Acyclic aliasReg ∧
    (aliasReg.get "X").isSome = true ∧
    CapabilityResolver.resolve aliasReg 10 "X" = .ok ["P", "P", "X"] ∧
    ¬ (["P", "P", "X"] : List String).Nodup :=
  ⟨aliasReg_acyclic, by decide, by decide, by decide⟩

/-- C2 (amended): on an acyclic resolved dependency graph every plan
`resolve` returns lists each entry after all of its (transitively closed,
resolved) dependencies; and when every dependency name is a registered id —
no provides-alias indirection — each capability appears at most once.  A
capability reachable both under its own id and under a provides alias may
appear more than once (see the counterexample). -/
theorem C2_amended (r : CapabilityRegistry) (fuel : Nat) (X : String)
    (l : List String) :
    (CapabilityResolver.Acyclic r →
      CapabilityResolver.resolve r fuel X = .ok l →
      CapabilityResolver.Ordered r l ∧
      (∀ k (hk : k < l.length) y,
        Relation.TransGen (CapabilityResolver.Edge r) (l.get ⟨k, hk⟩) y →
        y ∈ l.take k)) ∧
    (CapabilityResolver.DirectDeps r → (r.get X).isSome = true →
      CapabilityResolver.resolve r fuel X = .ok l → l.Nodup) := by
  constructor
  · intro acy hres
    unfold CapabilityResolver.resolve at hres
    cases hv : CapabilityResolver.visit r fuel X ([], []) with
    | error e =>
      rw [hv] at hres
      exact absurd hres (by simp)
    | ok st =>
      obtain ⟨v, res⟩ := st
      rw [hv] at hres
      simp only [Except.ok.injEq] at hres
      subst hres
      have hinv := CapabilityResolver.visit_inv r acy fuel X [] [] [] v res hv
        (by simp) trivial (by intro n hn; simp at hn)
        (by intro k hk; simp at hk)
      obtain ⟨_, _, _, hord, _⟩ := hinv
      exact ⟨hord, CapabilityResolver.ordered_transGen r res hord⟩
  · intro hNA hX hres
    unfold CapabilityResolver.resolve at hres
    cases hv : CapabilityResolver.visit r fuel X ([], []) with
    | error e =>
      rw [hv] at hres
      exact absurd hres (by simp)
    | ok st =>
      obtain ⟨v, res⟩ := st
      rw [hv] at hres
      simp only [Except.ok.injEq] at hres
      subst hres
      obtain ⟨tl, htl, hn, _, _⟩ := CapabilityResolver.visit_nodup r hNA fuel
        X [] [] v res hv (Or.inl hX)
      rw [htl]
      simpa using hn

/-- `regW` has no edges at all. -/
theorem regW_no_edge (a b : String) :
    ¬ CapabilityResolver.Edge regW a b := by
  rintro ⟨m, hget, d, hd, _⟩
  have hmem : a ∈ regW.manifests.map Prod.fst :=
    PyDict.mem_keys_of_get? _ _ _ hget
  have hkeys : regW.manifests.map Prod.fst = ["W"] := by decide
  rw [hkeys] at hmem
  have ha : a = "W" := List.mem_singleton.mp hmem
  subst ha
  have hm : m = manW := by
    have hc : regW.get "W" = some manW := by decide
    rw [hc] at hget
    exact (Option.some.injEq _ _).mp hget.symm
  rw [hm] at hd
  have hdep : manW.dependencies = [] := by decide
  rw [hdep] at hd
  exact absurd hd (List.not_mem_nil d)

/-- `regW` is acyclic. -/
theorem regW_acyclic : CapabilityResolver.Acyclic regW := by
  intro a h
  have hall : ∀ x y, ¬ Relation.TransGen (CapabilityResolver.Edge regW) x y := by
    intro x y h2
    induction h2 with
    | single e => exact regW_no_edge _ _ e
    | tail _ e _ => exact regW_no_edge _ _ e
  exact hall a a h

/-- Witness for C2 (amended) on the one-capability registry `regW`. -/
theorem C2_witness :
    CapabilityResolver.Ordered regW ["W"] ∧ (["W"] : List String).Nodup := by
  have hNA : CapabilityResolver.DirectDeps regW := by
    intro id m hget d hd
    have hmem : id ∈ regW.manifests.map Prod.fst :=
      PyDict.mem_keys_of_get? _ _ _ hget
    have hkeys : regW.manifests.map Prod.fst = ["W"] := by decide
    rw [hkeys] at hmem
    have ha : id = "W" := List.mem_singleton.mp hmem
    subst ha
    have hm : m = manW := by
      have hc : regW.get "W" = some manW := by decide
      rw [hc] at hget
      exact (Option.some.injEq _ _).mp hget.symm
    rw [hm] at hd
    have hdep : manW.dependencies = [] := by decide
    rw [hdep] at hd
    exact absurd hd (List.not_mem_nil d)
  have hres : CapabilityResolver.resolve regW 5 "W" = .ok ["W"] := by decide
  exact ⟨((C2_amended regW 5 "W" ["W"]).1 regW_acyclic hres).1,
    (C2_amended regW 5 "W" ["W"]).2 hNA (by decide) hres⟩

/-! ## Claim C3 — hot swap -/

theorem loadedWellKeyed_set (l : List (String × Capability V)) (k : String)
    (c : Capability V) (hL : LoadedWellKeyed l) (hc : c.manifest.id = k) :
    LoadedWellKeyed (PyDict.set l k c) := by
  intro k2 c2 hg2
  by_cases hk : k2 = k
  · subst hk
    rw [PyDict.get?_set_self] at hg2
    cases hg2
    exact hc
  · rw [PyDict.get?_set_of_ne _ _ _ _ hk] at hg2
    exact hL _ _ hg2

theorem loadedWellKeyed_update (l : List (String × Capability V)) (k : String)
    (f : Capability V → Capability V) (hL : LoadedWellKeyed l)
    (hf : ∀ c, (f c).manifest = c.manifest) :
    LoadedWellKeyed (PyDict.update l k f) := by
  intro k2 c2 hg2
  by_cases hk : k2 = k
  · subst hk
    rw [PyDict.get?_update_self] at hg2
    cases hg : PyDict.get? l k2 with
    | none => rw [hg] at hg2; exact absurd hg2 (by simp)
    | some c0 =>
      rw [hg] at hg2
      have hco : f c0 = c2 := by simpa using hg2
      rw [← hco, hf c0]
      exact hL _ _ hg
  · rw [PyDict.get?_update_of_ne _ _ _ _ hk] at hg2
    exact hL _ _ hg2

theorem regWellKeyed_register (r : CapabilityRegistry)
    (m : CapabilityManifest) (h : RegWellKeyed r) :
    RegWellKeyed (r.register m).2 := by
  rcases register_snd r m with he | he
  · rw [he]; exact h
  · rw [he]
    intro k mm hget
    rw [get_doRegister] at hget
    by_cases hk : k = m.id
    · rw [if_pos hk] at hget
      cases hget
      exact hk.symm
    · rw [if_neg hk] at hget
      exact h _ _ hget

theorem register_get_hash (r : CapabilityRegistry) (m : CapabilityManifest) :
    ∀ mm, ((r.register m).2).get m.id = some mm →
      mm.genome_hash = m.genome_hash := by
  intro mm hget
  unfold CapabilityRegistry.register at hget
  cases hg : PyDict.get? r.manifests m.id with
  | some ex =>
    simp only [hg] at hget
    by_cases hh : ex.genome_hash = m.genome_hash
    · rw [if_pos hh] at hget
      have hex : r.get m.id = some ex := hg
      simp only [CapabilityRegistry.get] at hget
      rw [show PyDict.get? r.manifests m.id = some ex from hg] at hget
      cases hget
      exact hh
    · rw [if_neg hh] at hget
      rw [get_doRegister, if_pos rfl] at hget
      cases hget
      rfl
  | none =>
    simp only [hg] at hget
    rw [get_doRegister, if_pos rfl] at hget
    cases hget
    rfl

/-- What a successful `load` guarantees: either the cached instance is
returned with the state untouched, or a fresh capability carrying the
registered manifest is cached. -/
theorem load_spec (E : PyEnv V) (st : LoaderState V) (dep : String)
    (cap : Capability V) (st1 : LoaderState V)
    (h : CapabilityLoader.load E st dep = .ok (cap, st1)) :
    (PyDict.get? st.loaded dep = some cap ∧ st1 = st) ∨
    (PyDict.get? st.loaded dep = none ∧
      ∃ m, st.registry.get dep = some m ∧ cap.manifest = m ∧
        st1.registry = st.registry ∧ st1.active = st.active ∧
        st1.shared = st.shared ∧
        st1.loaded = PyDict.set st.loaded dep cap) := by
  unfold CapabilityLoader.load at h
  cases hc : PyDict.get? st.loaded dep with
  | some c =>
    simp only [hc, Except.ok.injEq, Prod.mk.injEq] at h
    obtain ⟨h1, h2⟩ := h
    subst h1
    subst h2
    exact Or.inl ⟨rfl, rfl⟩
  | none =>
    simp only [hc] at h
    cases hr : st.registry.get dep with
    | none =>
      rw [hr] at h
      exact absurd h (by simp)
    | some m =>
      rw [hr] at h
      simp only at h
      by_cases hv : CapabilityCodec.verify E.libs m.genome m.genome_hash
        = false
      · rw [if_pos hv] at h
        exact absurd h (by simp)
      · rw [if_neg hv] at h
        cases hd : CapabilityCodec.decompress E.libs m.genome with
        | error e =>
          rw [hd] at h
          exact absurd h (by simp)
        | ok source =>
          rw [hd] at h
          simp only [Except.ok.injEq, Prod.mk.injEq] at h
          obtain ⟨h1, h2⟩ := h
          subst h1
          subst h2
          exact Or.inr ⟨rfl, m, rfl, rfl, rfl, rfl, rfl, rfl⟩

/-- What a successful `_activate_single` guarantees: an `ACTIVE` instance
sharing the manifest is stored under the manifest's id in both the loaded
cache (the mutated alias) and the active set; the registry is untouched. -/
theorem activateSingle_spec (E : PyEnv V) (st1 : LoaderState V)
    (cap : Capability V) (stS : LoaderState V)
    (h : CapabilityLoader.activateSingle E st1 cap = .ok stS) :
    ∃ capA : Capability V, capA.manifest = cap.manifest ∧
      capA.state = .active ∧
      stS.registry = st1.registry ∧
      stS.loaded = PyDict.set st1.loaded cap.manifest.id capA ∧
      stS.active = PyDict.set st1.active cap.manifest.id capA := by
  unfold CapabilityLoader.activateSingle at h
  cases hexec : E.exec cap.source
      (PyDict.set
        (PyDict.set st1.shared "__capability_id__"
          (E.capIdVal cap.manifest.id))
        "__capability_manifest__" (E.manifestVal cap.manifest)) with
  | error e =>
    simp only [hexec] at h
    exact absurd h (by simp)
  | ok ns1 =>
    simp only [hexec] at h
    split at h
    · exact absurd h (by simp)
    · simp only [Except.ok.injEq] at h
      subst h
      exact ⟨{ cap with ns := ns1, state := CapabilityState.active, activated_at := st1.now }, rfl, rfl, rfl, rfl, rfl⟩

/-- The activation loop preserves, for a fixed id `K` whose registered
manifest has hash `H`: the registry itself, well-keyedness of the cache,
and "any cached or active instance of `K` carries hash `H`". -/
theorem activateLoop_hash_inv (E : PyEnv V) (K H : String) :
    ∀ (order : List String) (st st2 : LoaderState V),
      CapabilityLoader.activateLoop E st order = .ok st2 →
      RegWellKeyed st.registry →
      LoadedWellKeyed st.loaded →
      (∀ mm, st.registry.get K = some mm → mm.genome_hash = H) →
      (∀ c, PyDict.get? st.loaded K = some c →
        c.manifest.genome_hash = H) →
      (∀ c, PyDict.get? st.active K = some c →
        c.manifest.genome_hash = H) →
      st2.registry = st.registry ∧ LoadedWellKeyed st2.loaded ∧
      (∀ c, PyDict.get? st2.loaded K = some c →
        c.manifest.genome_hash = H) ∧
      (∀ c, PyDict.get? st2.active K = some c →
        c.manifest.genome_hash = H) := by
  intro order
  induction order with
  | nil =>
    intro st st2 hok hWK hLW hKreg hKload hKact
    simp only [CapabilityLoader.activateLoop, Except.ok.injEq] at hok
    subst hok
    exact ⟨rfl, hLW, hKload, hKact⟩
  | cons dep rest ih =>
    intro st st2 hok hWK hLW hKreg hKload hKact
    simp only [CapabilityLoader.activateLoop] at hok
    by_cases hact : (PyDict.get? st.active dep).isSome = true
    · rw [if_pos hact] at hok
      exact ih st st2 hok hWK hLW hKreg hKload hKact
    · rw [if_neg hact] at hok
      cases hload : CapabilityLoader.load E st dep with
      | error e =>
        rw [hload] at hok
        exact absurd hok (by simp)
      | ok p =>
        obtain ⟨cap, st1⟩ := p
        rw [hload] at hok
        simp only at hok
        have hcapid : cap.manifest.id = dep ∧ st1.registry = st.registry ∧
            st1.active = st.active ∧ LoadedWellKeyed st1.loaded ∧
            (∀ c, PyDict.get? st1.loaded K = some c →
              c.manifest.genome_hash = H) ∧
            (dep = K → cap.manifest.genome_hash = H) := by
          rcases load_spec E st dep cap st1 hload with ⟨hc, he⟩ |
              ⟨hmiss, m, hr, hcm, hr1, ha1, hs1, hl1⟩
          · subst he
            refine ⟨hLW dep cap hc, rfl, rfl, hLW, hKload, ?_⟩
            intro hdk
            subst hdk
            exact hKload cap hc
          · have hid : cap.manifest.id = dep := by
              rw [hcm]
              exact hWK dep m hr
            refine ⟨hid, hr1, ha1, ?_, ?_, ?_⟩
            · rw [hl1]
              exact loadedWellKeyed_set st.loaded dep cap hLW hid
            · intro c hc
              rw [hl1] at hc
              by_cases hdk : K = dep
              · rw [hdk, PyDict.get?_set_self] at hc
                cases hc
                rw [hcm]
                exact hKreg m (hdk ▸ hr)
              · rw [PyDict.get?_set_of_ne _ _ _ _ hdk] at hc
                exact hKload c hc
            · intro hdk
              subst hdk
              rw [hcm]
              exact hKreg m hr
        obtain ⟨hcapid, hreg1, hact1, hLW1, hKload1, hKcap⟩ := hcapid
        cases hsingle : CapabilityLoader.activateSingle E st1 cap with
        | error e =>
          rw [hsingle] at hok
          exact absurd hok (by simp)
        | ok stS =>
          rw [hsingle] at hok
          simp only at hok
          obtain ⟨capA, hAm, _, hSreg, hSload, hSact⟩ :=
            activateSingle_spec E st1 cap stS hsingle
          have hAid : capA.manifest.id = dep := by rw [hAm]; exact hcapid
          have hSWK : RegWellKeyed stS.registry := by
            rw [hSreg, hreg1]
            exact hWK
          have hSLW : LoadedWellKeyed stS.loaded := by
            rw [hSload, hcapid]
            exact loadedWellKeyed_set st1.loaded dep capA hLW1 hAid
          have hSKreg : ∀ mm, stS.registry.get K = some mm →
              mm.genome_hash = H := by
            rw [hSreg, hreg1]
            exact hKreg
          have hSKload : ∀ c, PyDict.get? stS.loaded K = some c →
              c.manifest.genome_hash = H := by
            intro c hc
            rw [hSload, hcapid] at hc
            by_cases hdk : K = dep
            · rw [hdk, PyDict.get?_set_self] at hc
              cases hc
              rw [hAm]
              exact hKcap hdk.symm
            · rw [PyDict.get?_set_of_ne _ _ _ _ hdk] at hc
              exact hKload1 c hc
          have hSKact : ∀ c, PyDict.get? stS.active K = some c →
              c.manifest.genome_hash = H := by
            intro c hc
            rw [hSact, hcapid] at hc
            by_cases hdk : K = dep
            · rw [hdk, PyDict.get?_set_self] at hc
              cases hc
              rw [hAm]
              exact hKcap hdk.symm
            · rw [PyDict.get?_set_of_ne _ _ _ _ hdk] at hc
              rw [hact1] at hc
              exact hKact c hc
          have := ih stS st2 hok hSWK hSLW hSKreg hSKload hSKact
          obtain ⟨hr2, hw2, hl2, ha2⟩ := this
          refine ⟨?_, hw2, hl2, ha2⟩
          rw [hr2, hSreg, hreg1]

theorem loadedWellKeyed_erase (l : List (String × Capability V)) (k : String)
    (hL : LoadedWellKeyed l) (hU : PyDict.UniqKeys l) :
    LoadedWellKeyed (PyDict.erase l k) := by
  intro k2 c2 hg2
  by_cases hk : k2 = k
  · subst hk
    rw [PyDict.get?_erase_self _ _ hU] at hg2
    exact absurd hg2 (by simp)
  · rw [PyDict.get?_erase_of_ne _ _ _ hk] at hg2
    exact hL _ _ hg2

/-- What a successful `activate` on a not-yet-active id guarantees: a
resolved load order, a successful activation loop, and the returned
capability looked up from the final active set. -/
theorem activate_spec (E : PyEnv V) (st3 : LoaderState V) (id : String)
    (fuel : Nat) (cap : Capability V) (st4 : LoaderState V)
    (h : CapabilityLoader.activate E st3 id fuel = .ok (cap, st4))
    (hnone : PyDict.get? st3.active id = none) :
    ∃ lo stL, CapabilityResolver.resolve st3.registry fuel id = .ok lo ∧
      CapabilityLoader.activateLoop E st3 lo = .ok stL ∧ st4 = stL ∧
      PyDict.get? stL.active id = some cap := by
  unfold CapabilityLoader.activate at h
  simp only [hnone] at h
  cases hres : CapabilityResolver.resolve st3.registry fuel id with
  | error e =>
    rw [hres] at h
    exact absurd h (by simp)
  | ok lo =>
    rw [hres] at h
    simp only at h
    cases hloop : CapabilityLoader.activateLoop E st3 lo with
    | error e =>
      rw [hloop] at h
      exact absurd h (by simp)
    | ok stL =>
      rw [hloop] at h
      simp only at h
      cases hfin : PyDict.get? stL.active id with
      | none =>
        rw [hfin] at h
        exact absurd h (by simp)
      | some capF =>
        rw [hfin] at h
        simp only [Except.ok.injEq, Prod.mk.injEq] at h
        obtain ⟨h1, h2⟩ := h
        subst h1
        subst h2
        exact ⟨lo, stL, rfl, hloop, rfl, hfin⟩

/-- The successful hot-swap of an active, swappable capability returns
`True` after deactivating the old instance, evicting the loaded copy,
registering the new manifest and activating it. -/
theorem hot_swap_spec (E : PyEnv V) (st : LoaderState V)
    (m2 : CapabilityManifest) (old_cap : Capability V) (fuel : Nat)
    (b : Bool) (st4 : LoaderState V)
    (hact : PyDict.get? st.active m2.id = some old_cap)
    (hsw : old_cap.manifest.hot_swappable = true)
    (hok : CapabilityLoader.hot_swap E st m2 fuel = .ok (b, st4)) :
    b = true ∧
    ∃ cap, CapabilityLoader.activate E
      { registry := (st.registry.register m2).2,
        loaded := PyDict.erase
          (PyDict.update st.loaded m2.id
            (fun c => { c with state := CapabilityState.suspended })) m2.id,
        active := PyDict.erase st.active m2.id,
        shared := st.shared,
        now := st.now }
      m2.id fuel = .ok (cap, st4) := by
  simp only [CapabilityLoader.hot_swap, hact] at hok
  rw [if_neg (by simp [hsw])] at hok
  simp only [CapabilityLoader.deactivate, hact] at hok
  cases hl : PyDict.get?
      (PyDict.update st.loaded m2.id
        (fun c => { c with state := CapabilityState.suspended })) m2.id with
  | none =>
    rw [hl] at hok
    exact absurd hok (by simp)
  | some c0 =>
    rw [hl] at hok
    simp only at hok
    cases hactRes : CapabilityLoader.activate E
        { registry := (st.registry.register m2).2,
          loaded := PyDict.erase
            (PyDict.update st.loaded m2.id
              (fun c => { c with state := CapabilityState.suspended })) m2.id,
          active := PyDict.erase st.active m2.id,
          shared := st.shared,
          now := st.now }
        m2.id fuel with
    | error e =>
      rw [hactRes] at hok
      exact absurd hok (by simp)
    | ok p =>
      obtain ⟨cap, stA⟩ := p
      rw [hactRes] at hok
      simp only [Except.ok.injEq, Prod.mk.injEq] at hok
      obtain ⟨h1, h2⟩ := hok
      subst h2
      exact ⟨h1.symm, cap, rfl⟩

/-- C3: `hot_swap(m2)` against an active instance of the same id: when the
active instance's manifest is not hot-swappable, it returns `False` and the
state (in particular the active instance) is untouched; when it is
hot-swappable and the call returns, it returns `True` and the active
instance for the id afterwards carries `m2`'s `genome_hash`.  (The
well-keyedness and unique-key hypotheses hold in every reachable loader
state.) -/
theorem C3_hot_swap (E : PyEnv V) (st : LoaderState V)
    (m2 : CapabilityManifest) (old_cap : Capability V) (fuel : Nat)
    (hact : PyDict.get? st.active m2.id = some old_cap) :
    (old_cap.manifest.hot_swappable = false →
      CapabilityLoader.hot_swap E st m2 fuel = .ok (false, st)) ∧
    (old_cap.manifest.hot_swappable = true →
      RegWellKeyed st.registry → LoadedWellKeyed st.loaded →
      PyDict.UniqKeys st.loaded → PyDict.UniqKeys st.active →
      ∀ b st4, CapabilityLoader.hot_swap E st m2 fuel = .ok (b, st4) →
        b = true ∧
        (PyDict.get? st4.active m2.id).map (fun c => c.manifest.genome_hash)
          = some m2.genome_hash) := by
  constructor
  · intro hfalse
    simp [CapabilityLoader.hot_swap, hact, hfalse]
  · intro htrue hWK hLW hUL hUA b st4 hok
    obtain ⟨hb, cap, hactRes⟩ :=
      hot_swap_spec E st m2 old_cap fuel b st4 hact htrue hok
    have hnone3 : PyDict.get? (PyDict.erase st.active m2.id) m2.id = none :=
      PyDict.get?_erase_self _ _ hUA
    obtain ⟨lo, stL, hres, hloop, hst4, hfin⟩ :=
      activate_spec E _ m2.id fuel cap st4 hactRes hnone3
    have hUup : PyDict.UniqKeys (PyDict.update st.loaded m2.id
        (fun c => { c with state := CapabilityState.suspended })) :=
      PyDict.uniqKeys_update _ _ _ hUL
    have hLWu : LoadedWellKeyed (PyDict.update st.loaded m2.id
        (fun c => { c with state := CapabilityState.suspended })) :=
      loadedWellKeyed_update _ _ _ hLW (fun c => rfl)
    have hinv := activateLoop_hash_inv E m2.id m2.genome_hash lo _ stL hloop
      (regWellKeyed_register st.registry m2 hWK)
      (loadedWellKeyed_erase _ _ hLWu hUup)
      (register_get_hash st.registry m2)
      (by intro c hc
          rw [PyDict.get?_erase_self _ _ hUup] at hc
          exact absurd hc (by simp))
      (by intro c hc
          rw [hnone3] at hc
          exact absurd hc (by simp))
    obtain ⟨_, _, _, hKact⟩ := hinv
    refine ⟨hb, ?_⟩
    rw [hst4, hfin]
    simp [hKact cap hfin]

/-- Witness for C3: the non-swappable `NS` refuses the swap and keeps its
state; the swappable `SW` swaps to generation two, whose hash the active
instance then carries. -/
theorem C3_witness :
    CapabilityLoader.hot_swap natEnv stNs1 manNs2 5 = .ok (false, stNs1) ∧
    (PyDict.get? (swapState (CapabilityLoader.hot_swap natEnv stSw1 manSw2 5)).active
        manSw2.id).map (fun c => c.manifest.genome_hash)
      = some manSw2.genome_hash := by
  constructor
  · exact (C3_hot_swap natEnv stNs1 manNs2 capNs1 5 (by decide)).1 (by decide)
  · exact ((C3_hot_swap natEnv stSw1 manSw2 capSw1 5 (by decide)).2 (by decide)
      (regWellKeyed_of_entries _ (by decide))
      (loadedWellKeyed_of_entries _ (by decide))
      (show (stSw1.loaded.map Prod.fst).Nodup by decide)
      (show (stSw1.active.map Prod.fst).Nodup by decide) true
      (swapState (CapabilityLoader.hot_swap natEnv stSw1 manSw2 5))
      (by decide)).2

/-! ## Claim C6 — activation and the shared symbol table -/

/-- `_activate_single`, full form: the shared table after the call is the
export-publishing fold over the executed namespace. -/
theorem activateSingle_spec2 (E : PyEnv V) (st1 : LoaderState V)
    (cap : Capability V) (stS : LoaderState V)
    (h : CapabilityLoader.activateSingle E st1 cap = .ok stS) :
    ∃ ns1 : List (String × V),
      stS.registry = st1.registry ∧
      stS.loaded = PyDict.set st1.loaded cap.manifest.id
        { cap with
          ns := ns1
          state := CapabilityState.active
          activated_at := st1.now } ∧
      stS.active = PyDict.set st1.active cap.manifest.id
        { cap with
          ns := ns1
          state := CapabilityState.active
          activated_at := st1.now } ∧
      stS.shared = cap.manifest.exports.foldl
        (fun sh ex =>
          match PyDict.get? ns1 ex with
          | some v => PyDict.set sh ex v
          | none => sh) st1.shared := by
  unfold CapabilityLoader.activateSingle at h
  cases hexec : E.exec cap.source
      (PyDict.set
        (PyDict.set st1.shared "__capability_id__"
          (E.capIdVal cap.manifest.id))
        "__capability_manifest__" (E.manifestVal cap.manifest)) with
  | error e =>
    simp only [hexec] at h
    exact absurd h (by simp)
  | ok ns1 =>
    simp only [hexec] at h
    split at h
    · exact absurd h (by simp)
    · simp only [Except.ok.injEq] at h
      subst h
      exact ⟨ns1, rfl, rfl, rfl, rfl⟩

/-- Publishing keeps every already-present shared key present. -/
theorem publish_mono (ns1 : List (String × V)) (exports : List String) :
    ∀ (sh : List (String × V)) (e : String),
    (PyDict.get? sh e).isSome = true →
    (PyDict.get? (exports.foldl
      (fun sh2 ex =>
        match PyDict.get? ns1 ex with
        | some v => PyDict.set sh2 ex v
        | none => sh2) sh) e).isSome = true := by
  induction exports with
  | nil => intro sh e h; exact h
  | cons ex rest ih =>
    intro sh e h
    simp only [List.foldl_cons]
    apply ih
    cases hx : PyDict.get? ns1 ex with
    | none => exact h
    | some v =>
      by_cases he : e = ex
      · subst he
        rw [PyDict.get?_set_self]
        rfl
      · rw [PyDict.get?_set_of_ne _ _ _ _ he]
        exact h

/-- Publishing makes every export present in the executed namespace a key
of the shared table. -/
theorem publish_mem (ns1 : List (String × V)) (exports : List String) :
    ∀ (sh : List (String × V)) (e : String), e ∈ exports →
    (PyDict.get? ns1 e).isSome = true →
    (PyDict.get? (exports.foldl
      (fun sh2 ex =>
        match PyDict.get? ns1 ex with
        | some v => PyDict.set sh2 ex v
        | none => sh2) sh) e).isSome = true := by
  induction exports with
  | nil => intro sh e he; exact absurd he (List.not_mem_nil e)
  | cons ex rest ih =>
    intro sh e he hns
    simp only [List.foldl_cons]
    rcases List.mem_cons.mp he with he2 | hm
    · subst he2
      obtain ⟨v, hv⟩ := Option.isSome_iff_exists.mp hns
      rw [hv]
      apply publish_mono
      rw [PyDict.get?_set_self]
      rfl
    · cases hx : PyDict.get? ns1 ex with
      | none => exact ih _ e hm hns
      | some v => exact ih _ e hm hns

/-- The activation loop: every processed id ends active (instances in the
active set are in state `ACTIVE`), active entries and shared keys are never
removed, and every instance the loop activates has its namespace-present
exports published in the final shared table. -/
theorem activateLoop_active_inv (E : PyEnv V) :
    ∀ (order : List String) (st st2 : LoaderState V),
      CapabilityLoader.activateLoop E st order = .ok st2 →
      RegWellKeyed st.registry →
      LoadedWellKeyed st.loaded →
      (∀ k c, PyDict.get? st.active k = some c → c.state = .active) →
      st2.registry = st.registry ∧
      LoadedWellKeyed st2.loaded ∧
      (∀ k c, PyDict.get? st2.active k = some c → c.state = .active) ∧
      (∀ d ∈ order, (PyDict.get? st2.active d).isSome = true) ∧
      (∀ k, (PyDict.get? st.active k).isSome = true →
        (PyDict.get? st2.active k).isSome = true) ∧
      (∀ e, (PyDict.get? st.shared e).isSome = true →
        (PyDict.get? st2.shared e).isSome = true) ∧
      (∀ k c, PyDict.get? st2.active k = some c →
        PyDict.get? st.active k = some c ∨
        ∀ e ∈ c.manifest.exports, (PyDict.get? c.ns e).isSome = true →
          (PyDict.get? st2.shared e).isSome = true) := by
  intro order
  induction order with
  | nil =>
    intro st st2 hok _ hLW hAS
    simp only [CapabilityLoader.activateLoop, Except.ok.injEq] at hok
    subst hok
    exact ⟨rfl, hLW, hAS, by simp, fun k h => h, fun e h => h,
      fun k c hc => Or.inl hc⟩
  | cons dep rest ih =>
    intro st st2 hok hWK hLW hAS
    simp only [CapabilityLoader.activateLoop] at hok
    by_cases hact : (PyDict.get? st.active dep).isSome = true
    · rw [if_pos hact] at hok
      obtain ⟨A1, A2, A3, A4, A5, A6, A7⟩ := ih st st2 hok hWK hLW hAS
      refine ⟨A1, A2, A3, ?_, A5, A6, A7⟩
      intro d hd
      rcases List.mem_cons.mp hd with he | hm
      · rw [he]
        exact A5 dep hact
      · exact A4 d hm
    · rw [if_neg hact] at hok
      cases hload : CapabilityLoader.load E st dep with
      | error e =>
        rw [hload] at hok
        exact absurd hok (by simp)
      | ok p =>
        obtain ⟨cap, st1⟩ := p
        rw [hload] at hok
        simp only at hok
        have hfacts : cap.manifest.id = dep ∧ st1.registry = st.registry ∧
            st1.active = st.active ∧ st1.shared = st.shared ∧
            LoadedWellKeyed st1.loaded := by
          rcases load_spec E st dep cap st1 hload with ⟨hc, he⟩ |
              ⟨_, m, hr, hcm, hr1, ha1, hs1, hl1⟩
          · subst he
            exact ⟨hLW dep cap hc, rfl, rfl, rfl, hLW⟩
          · have hid : cap.manifest.id = dep := by
              rw [hcm]
              exact hWK dep m hr
            refine ⟨hid, hr1, ha1, hs1, ?_⟩
            rw [hl1]
            exact loadedWellKeyed_set st.loaded dep cap hLW hid
        obtain ⟨hcapid, hreg1, hact1, hsh1, hLW1⟩ := hfacts
        cases hsingle : CapabilityLoader.activateSingle E st1 cap with
        | error e =>
          rw [hsingle] at hok
          exact absurd hok (by simp)
        | ok stS =>
          rw [hsingle] at hok
          simp only at hok
          obtain ⟨ns1, hSreg, hSload, hSact, hSsh⟩ :=
            activateSingle_spec2 E st1 cap stS hsingle
          have hSWK : RegWellKeyed stS.registry := by
            rw [hSreg, hreg1]; exact hWK
          have hSLW : LoadedWellKeyed stS.loaded := by
            rw [hSload, hcapid]
            exact loadedWellKeyed_set st1.loaded dep _ hLW1 (by exact hcapid)
          have hSAS : ∀ k c, PyDict.get? stS.active k = some c →
              c.state = .active := by
            intro k c hc
            rw [hSact, hcapid] at hc
            by_cases hk : k = dep
            · subst hk
              rw [PyDict.get?_set_self] at hc
              cases hc
              rfl
            · rw [PyDict.get?_set_of_ne _ _ _ _ hk, hact1] at hc
              exact hAS k c hc
          obtain ⟨A1, A2, A3, A4, A5, A6, A7⟩ :=
            ih stS st2 hok hSWK hSLW hSAS
          have hSactive_dep : (PyDict.get? stS.active dep).isSome = true := by
            rw [hSact, hcapid, PyDict.get?_set_self]
            rfl
          have hshS : ∀ e, (PyDict.get? st.shared e).isSome = true →
              (PyDict.get? stS.shared e).isSome = true := by
            intro e hse
            rw [hSsh, hsh1]
            exact publish_mono ns1 cap.manifest.exports st.shared e hse
          refine ⟨by rw [A1, hSreg, hreg1], A2, A3, ?_, ?_, ?_, ?_⟩
          · intro d hd
            rcases List.mem_cons.mp hd with he | hm
            · rw [he]
              exact A5 dep hSactive_dep
            · exact A4 d hm
          · intro k hk
            apply A5
            rw [hSact, hcapid]
            by_cases hkd : k = dep
            · subst hkd
              rw [PyDict.get?_set_self]
              rfl
            · rw [PyDict.get?_set_of_ne _ _ _ _ hkd, hact1]
              exact hk
          · intro e hse
            exact A6 e (hshS e hse)
          · intro k c hc
            rcases A7 k c hc with hl | hr
            · rw [hSact, hcapid] at hl
              by_cases hkd : k = dep
              · subst hkd
                rw [PyDict.get?_set_self] at hl
                right
                intro e he hens
                cases hl
                apply A6
                rw [hSsh, hsh1]
                exact publish_mem ns1 cap.manifest.exports st.shared e he hens
              · rw [PyDict.get?_set_of_ne _ _ _ _ hkd, hact1] at hl
                exact Or.inl hl
            · exact Or.inr hr

/-- C6 counterexample, two scenarios.  (i) `X6` exports `FOO`, which its
executed source does not define: activation succeeds but `FOO` is absent
from the shared symbol table (the `if export in namespace` guard skips it).
(ii) With `XD` active and its dependency `D` deactivated, `activate("XD")`
returns the cached instance successfully while `D ∈ resolve("XD")` is not
active. -/
theorem C6_counterexample :
    exOk (CapabilityLoader.activate natEnv st6 "X6" 5) = true ∧
    "FOO" ∈ manX6.exports ∧
    PyDict.get? st6A.shared "FOO" = none ∧
    exOk (CapabilityLoader.activate natEnv stb2 "XD" 5) = true ∧
    CapabilityResolver.resolve stb2.registry 5 "XD" = .ok ["D", "XD"] ∧
    PyDict.get? stb2.active "D" = none :=
  ⟨by decide, by decide, by decide, by decide, by decide, by decide⟩

/-- C6 (amended): when `activate(X)` is called with `X` not already active
and returns successfully, every id in `resolve(X)` is in state active, and
every export name of `X`'s manifest *that is present in the executed
namespace* is a key of the shared symbol table; export names the executed
source did not define (and that were not inherited into the namespace) are
skipped, and a call with `X` already active returns the cached instance
without re-checking its dependencies.  (The well-keyedness and state
hypotheses hold in every reachable loader state.) -/
theorem C6_amended (E : PyEnv V) (st : LoaderState V) (X : String)
    (fuel : Nat) (cap : Capability V) (st2 : LoaderState V)
    (hnot : PyDict.get? st.active X = none)
    (hWK : RegWellKeyed st.registry) (hLW : LoadedWellKeyed st.loaded)
    (hAS : ∀ k c, PyDict.get? st.active k = some c → c.state = .active)
    (hok : CapabilityLoader.activate E st X fuel = .ok (cap, st2)) :
    (∀ lo, CapabilityResolver.resolve st.registry fuel X = .ok lo →
      ∀ d ∈ lo, ∃ c, PyDict.get? st2.active d = some c ∧
        c.state = .active) ∧
    (∀ e ∈ cap.manifest.exports, (PyDict.get? cap.ns e).isSome = true →
      (PyDict.get? st2.shared e).isSome = true) := by
  obtain ⟨lo0, stL, hres0, hloop, hst2, hfin⟩ :=
    activate_spec E st X fuel cap st2 hok hnot
  obtain ⟨A1, A2, A3, A4, A5, A6, A7⟩ :=
    activateLoop_active_inv E lo0 st stL hloop hWK hLW hAS
  subst hst2
  constructor
  · intro lo hres d hd
    have hlo : lo = lo0 := by
      rw [hres0] at hres
      injection hres with heq
      exact heq.symm
    subst hlo
    obtain ⟨c, hc⟩ := Option.isSome_iff_exists.mp (A4 d hd)
    exact ⟨c, hc, A3 d c hc⟩
  · intro e he hens
    rcases A7 X cap hfin with hl | hr
    · rw [hnot] at hl
      exact absurd hl (by simp)
    · exact hr e he hens

/-- Witness for C6 (amended): after the fresh activation of `X6`, the id in
its load plan is active. -/
theorem C6_witness :
    (PyDict.get? st6A.active "X6").isSome = true := by
  have h := C6_amended natEnv st6 "X6" 5 cap6 st6A (by decide)
    (regWellKeyed_of_entries _ (by decide))
    (loadedWellKeyed_of_entries _ (by decide))
    (by intro k c hc
        simp [CapabilityLoader.init, PyDict.get?] at hc)
    (by decide)
  obtain ⟨c, hc, _⟩ := h.1 ["X6"] (by decide) "X6" (by decide)
  rw [hc]
  rfl
